import Mathlib

/-!
CURRYFINGER: the probing-and-scoring engine of `main.go`

A shallow embedding of `assess`, `assessWorker` and the dispatch loop of `test`
(`src/main.go`), together with the library routines they call, and the
properties of the specification proved (or refuted) against it.

Conventions.
* A Go `string` that carries an HTTP body is a list of bytes (`Body`); `len` and
  the slice `s[:n]` count bytes.
* Go `int` values are modelled by `Int`; none of the arithmetic below can leave
  the 64-bit range for lengths of real strings.
* The diagnostic stream (`e.Print`, standard error) is not modelled: nothing that
  is written there is read back by the program.
* A runtime fault (slice bounds out of range, nil pointer dereference) is the
  value `none`.
* `http.NewRequest` is not modelled: whether it accepts a target is an input
  (`req` in `assess`, the function `NewRequest` in the dispatch).
-/

namespace Curryfinger

/-! ## Data model -/

/-- One byte of a Go string. -/
abbrev Byte := Fin 256

/-- The contents of a Go `string` used as a response body. -/
abbrev Body := List Byte

/-- A Go `rune` (a Unicode code point). -/
abbrev Rune := Nat

/-- The command-line flags of `main.go` lines 34 to 45 that the engine reads
(`Threshold` is declared on line 39). -/
structure Config where
  DefBits : Int
  Threshold : Int
  Threads : Int
  ShowSample : Bool
deriving Repr

/-- The defaults of the flag declarations: `-mbits 500 -perc 50 -threads 200`. -/
def defaultConfig : Config :=
  { DefBits := 500, Threshold := 50, Threads := 200, ShowSample := false }

/-! ## Conversion `[]rune(s)` (Go runtime, `stringtoslicerune` / `decoderune`) -/

/-- The replacement rune U+FFFD produced for every ill-formed byte. -/
def runeError : Rune := 0xFFFD

/-- Continuation byte test `locb <= b && b <= hicb`. -/
def isCont (b : Byte) : Bool := 0x80 ≤ b.val && b.val ≤ 0xBF

/-- Go runtime `decoderune` applied to the bytes starting at the current
position (whose first byte is not ASCII): the decoded rune and the number of
bytes consumed. -/
def decoderune : List Byte → Rune × Nat
  | [] => (runeError, 1)
  | b0 :: rest =>
    if 0xC0 ≤ b0.val ∧ b0.val < 0xE0 then
      match rest with
      | b1 :: _ =>
        if isCont b1 then
          let r := (b0.val % 32) * 64 + (b1.val % 64)
          if 0x7F < r then (r, 2) else (runeError, 1)
        else (runeError, 1)
      | _ => (runeError, 1)
    else if 0xE0 ≤ b0.val ∧ b0.val < 0xF0 then
      match rest with
      | b1 :: b2 :: _ =>
        if isCont b1 && isCont b2 then
          let r := (b0.val % 16) * 4096 + (b1.val % 64) * 64 + (b2.val % 64)
          if 0x7FF < r ∧ ¬ (0xD800 ≤ r ∧ r ≤ 0xDFFF) then (r, 3) else (runeError, 1)
        else (runeError, 1)
      | _ => (runeError, 1)
    else if 0xF0 ≤ b0.val ∧ b0.val < 0xF8 then
      match rest with
      | b1 :: b2 :: b3 :: _ =>
        if isCont b1 && isCont b2 && isCont b3 then
          let r := (b0.val % 8) * 262144 + (b1.val % 64) * 4096 + (b2.val % 64) * 64
            + (b3.val % 64)
          if 0xFFFF < r ∧ r ≤ 0x10FFFF then (r, 4) else (runeError, 1)
        else (runeError, 1)
      | _ => (runeError, 1)
    else (runeError, 1)

/-- The loop `for _, r := range s` that fills the rune slice; the first
argument bounds the number of iterations (every iteration consumes a byte). -/
def toRunesLoop : Nat → List Byte → List Rune
  | 0, _ => []
  | _ + 1, [] => []
  | fuel + 1, b :: rest =>
    if b.val < 0x80 then b.val :: toRunesLoop fuel rest
    else
      let rn := decoderune (b :: rest)
      rn.1 :: toRunesLoop fuel ((b :: rest).drop rn.2)

/-- The conversion `[]rune(s)`. -/
def toRunes (s : Body) : List Rune := toRunesLoop s.length s

/-! ## `github.com/texttheater/golang-levenshtein/levenshtein` -/

/-- The library type `levenshtein.Options`. -/
structure Options where
  InsCost : Int
  DelCost : Int
  SubCost : Int
  Matches : Rune → Rune → Bool

/-- The library value `levenshtein.DefaultOptions`: insertion 1, deletion 1,
substitution 2, runes match when they are equal. -/
def DefaultOptions : Options :=
  { InsCost := 1, DelCost := 1, SubCost := 2, Matches := fun a b => a == b }

/-- The library value `levenshtein.DefaultOptionsWithSub` (substitution 1);
`main.go` does not use it. -/
def DefaultOptionsWithSub : Options :=
  { InsCost := 1, DelCost := 1, SubCost := 1, Matches := fun a b => a == b }

/-- The inner loop `for j := 1; j < width; j++` of `DistanceForStrings` for the
source rune `s`. Arguments: the target runes from column `j` on, the previous
row from column `j-1` on, and the value `cur[j-1]` just written. Result: the
cells `cur[j], cur[j+1], ...`. -/
def fillRow (op : Options) (s : Rune) : List Rune → List Int → Int → List Int
  | t :: ts, pd :: p :: ps, cl =>
    let delCost := p + op.DelCost
    let matchSubCost := if op.Matches s t then pd else pd + op.SubCost
    let insCost := cl + op.InsCost
    let c := min delCost (min matchSubCost insCost)
    c :: fillRow op s ts (p :: ps) c
  | _, _, _ => []

/-- One iteration of the outer loop: row `i` from row `i-1`
(`cur[0] = i * op.DelCost`, then the inner loop). -/
def nextRow (op : Options) (target : List Rune) (i : Nat) (s : Rune) (prev : List Int) :
    List Int :=
  ((i : Int) * op.DelCost) :: fillRow op s target prev ((i : Int) * op.DelCost)

/-- The outer loop `for i := 1; i < height; i++` started at row index `i`
with the remaining source runes. -/
def rowsLoop (op : Options) (target : List Rune) : Nat → List Rune → List Int → List Int
  | _, [], prev => prev
  | i, s :: ss, prev => rowsLoop op target (i + 1) ss (nextRow op target i s prev)

/-- The library function `levenshtein.DistanceForStrings`: row 0 is
`j * op.InsCost`, every further row is computed from the previous one, and the
result is the last cell of the last row. -/
def DistanceForStrings (source target : List Rune) (op : Options) : Int :=
  let row0 := (List.range (target.length + 1)).map (fun (j : Nat) => (j : Int) * op.InsCost)
  (rowsLoop op target 1 source row0).getLastD 0

/-! ## IEEE-754 single precision (`float32`), round to nearest, ties to even -/

/-- A finite `float32` value `(-1)^neg * man * 2^exp`. -/
structure F32 where
  neg : Bool
  man : Nat
  exp : Int
deriving DecidableEq, Repr

/-- Halving loop behind `ilog2`; the first argument bounds the iterations. -/
def log2Loop : Nat → Nat → Nat
  | 0, _ => 0
  | fuel + 1, n => if 2 ≤ n then log2Loop fuel (n / 2) + 1 else 0

/-- Position of the highest set bit of `n` (0 for `n ≤ 1`). -/
def ilog2 (n : Nat) : Nat := log2Loop n n

/-- Numerator and denominator of `(n / d) * 2^s`. -/
def scale (n d : Nat) (s : Int) : Nat × Nat :=
  if 0 ≤ s then (n * 2 ^ s.toNat, d) else (n, d * 2 ^ (-s).toNat)

/-- The integer `L` with `2^L ≤ n / d < 2^(L+1)`, for positive `n` and `d`. -/
def floorLog2 (n d : Nat) : Int :=
  let cand : Int := (ilog2 n : Int) - (ilog2 d : Int)
  let nd := scale n d (-cand)
  if nd.1 < nd.2 then cand - 1 else cand

/-- The integer nearest to `num / den`, ties to the even one. -/
def roundHalfEven (num den : Nat) : Nat :=
  let q := num / den
  let r := num % den
  if 2 * r < den then q
  else if den < 2 * r then q + 1
  else if q % 2 = 0 then q else q + 1

/-- The `float32` nearest to `(n / d) * 2^e` with the given sign: 24 significant
bits, gradual underflow below `2^-126`; `none` when `d = 0` or when the result
is not finite. -/
def F32.round (neg : Bool) (n d : Nat) (e : Int) : Option F32 :=
  if d = 0 then none
  else if n = 0 then some ⟨neg, 0, 0⟩
  else
    let qe : Int := max (floorLog2 n d + e - 23) (-149)
    let nd := scale n d (e - qe)
    let m := roundHalfEven nd.1 nd.2
    if 104 < qe ∨ (qe = 104 ∧ 2 ^ 24 ≤ m) then none else some ⟨neg, m, qe⟩

/-- The conversion `float32(z)` of a Go `int`. -/
def F32.ofInt (z : Int) : Option F32 := F32.round (decide (z < 0)) z.natAbs 1 0

/-- The `float32` quotient `x / y`; `none` when `y` is zero (the quotient is
then an infinity or a NaN). -/
def F32.div (x y : F32) : Option F32 :=
  F32.round (xor x.neg y.neg) x.man y.man (x.exp - y.exp)

/-- The `float32` product `x * y`. -/
def F32.mul (x y : F32) : Option F32 :=
  F32.round (xor x.neg y.neg) (x.man * y.man) 1 (x.exp + y.exp)

/-- The conversion `int(x)`: the fraction is discarded (truncation toward zero). -/
def F32.toInt (x : F32) : Int :=
  let nd := scale x.man 1 x.exp
  if x.neg then -((nd.1 / nd.2 : Nat) : Int) else ((nd.1 / nd.2 : Nat) : Int)

/-- The magnitude `man * 2^exp` of a `float32` as a rational number. -/
def F32.mag (x : F32) : ℚ := (x.man : ℚ) * (2 : ℚ) ^ x.exp

/-! ## `fmt.Sprint` and `log.Print` -/

/-- An operand of `Print`: `main.go` passes only strings and `int`s. -/
inductive Operand where
  | str (s : String)
  | int (n : Int)

/-- Whether the operand is of kind string. -/
def Operand.isString : Operand → Bool
  | .str _ => true
  | .int _ => false

/-- The `%v` rendering of an operand: a string as it is, an `int` in decimal. -/
def Operand.render : Operand → String
  | .str s => s
  | .int n => toString n

/-- The loop of `fmt`'s `doPrint`: a space is added between two operands when
neither is a string. -/
def doPrint : Bool → Bool → List Operand → String
  | _, _, [] => ""
  | first, prevString, a :: rest =>
    (if !first && !a.isString && !prevString then " " else "") ++ a.render
      ++ doPrint false a.isString rest

/-- The function `fmt.Sprint`. -/
def Sprint (a : List Operand) : String := doPrint true false a

/-- What `l.Print(v...)` writes to standard output for the logger
`log.New(os.Stdout, "", 0)`: `fmt.Sprint(v...)`, and a newline unless the text
already ends with one. -/
def logPrint (a : List Operand) : String :=
  let s := Sprint a
  if s.length = 0 ∨ s.back ≠ '\n' then s ++ "\n" else s

/-! ## `assess` (`main.go` lines 168 to 247) -/

/-- The body read by `ioutil.ReadAll(io.LimitReader(res.Body, int64(*DefBits)))`:
at most `DefBits` bytes of what the connection delivers (nothing when `DefBits`
is not positive). -/
def readLimited (DefBits : Int) (body : Body) : Body := body.take DefBits.toNat

/-- The probe body `jacked` (lines 199 to 210): empty when `jackedClient.Do`
fails (`res = none`), else the limited read of the response body. -/
def probeBody (DefBits : Int) (res : Option Body) : Body :=
  match res with
  | none => []
  | some body => readLimited DefBits body

/-- Lines 215 to 222: the comparable length. -/
def computeMatchBits (DefBits : Int) (og jacked : Body) : Int :=
  let matchBits := DefBits
  if (og.length : Int) < matchBits ∨ (jacked.length : Int) < matchBits then
    let matchBits := (og.length : Int)
    if (jacked.length : Int) < (og.length : Int) then (jacked.length : Int) else matchBits
  else matchBits

/-- The Go slice expression `s[:hi]`; `none` is the runtime fault
"slice bounds out of range". -/
def sliceTo (s : Body) (hi : Int) : Option Body :=
  if 0 ≤ hi ∧ hi ≤ (s.length : Int) then some (s.take hi.toNat) else none

/-- Line 232: `100 - int(float32(float32(distance)/float32(matchBits))*100)`;
`none` when the quotient is not a finite number. -/
def similarity (distance matchBits : Int) : Option Int := do
  let a ← F32.ofInt distance
  let b ← F32.ofInt matchBits
  let q ← F32.div a b
  let h ← F32.ofInt 100
  let p ← F32.mul q h
  pure (100 - p.toInt)

/-- What one call of `assess` computes and reports. `distance` and `matchy` are
`none` when the scorer was not reached; `stdout` lists the writes to the
results stream in order. -/
structure Assessment where
  matchBits : Int
  distance : Option Int
  matchy : Option Int
  stdout : List String
deriving DecidableEq, Repr

/-- The function `assess` from line 215 on, given the probe body `jacked`. -/
def assessBodies (cfg : Config) (og : Body) (target testIP : String) (jacked : Body) :
    Option Assessment :=
  let matchBits := computeMatchBits cfg.DefBits og jacked
  if matchBits < 5 then
    some { matchBits := matchBits, distance := none, matchy := none,
           stdout := [logPrint [.str "miss ", .str testIP, .str " ", .str target, .str " ",
             .int 0, .str " percent in ", .int 0, .str " bytes"]] }
  else
    match sliceTo og matchBits, sliceTo jacked matchBits with
    | some a, some b =>
      let distance := DistanceForStrings (toRunes a) (toRunes b) DefaultOptions
      match similarity distance matchBits with
      | some matchy =>
        if matchy > 50 then
          some { matchBits := matchBits, distance := some distance, matchy := some matchy,
                 stdout := [logPrint [.str "match ", .str testIP, .str " ", .str target,
                   .str " ", .int matchy, .str " percent in ", .int matchBits, .str " bytes"]] }
        else
          some { matchBits := matchBits, distance := some distance, matchy := some matchy,
                 stdout := [logPrint [.str "miss ", .str testIP, .str " ", .str target,
                   .str " ", .int matchy, .str " percent in ", .int matchBits, .str " bytes"]] }
      | none => none
    | _, _ => none

/-- The function `assess`. `req` tells whether `http.NewRequest("GET", target, nil)`
on line 194 returned a request: the error is not checked, so when the target is
rejected `req` is nil and `req.Header.Set` on line 195 faults (`none`). `res` is
the outcome of `jackedClient.Do(req)` (`none` for an error, else the bytes the
response body delivers). -/
def assess (cfg : Config) (og : Body) (target testIP : String) (req : Bool)
    (res : Option Body) : Option Assessment :=
  if req then assessBodies cfg og target testIP (probeBody cfg.DefBits res) else none

/-! ## The dial hook of `assess` (lines 179 to 183) and `net.SplitHostPort`

Addresses are text; `strings.LastIndex` and the slices below are taken on the
characters of the string, which for the ASCII separators `:`, `[` and `]`
selects the same substrings as the byte indices of Go. -/

/-- Scan behind `lastIndexByte`: position `i` of the scan, last hit so far. -/
def lastIndexLoop (c : Char) : List Char → Nat → Int → Int
  | [], _, acc => acc
  | x :: xs, i, acc => lastIndexLoop c xs (i + 1) (if x = c then (i : Int) else acc)

/-- The index of the last occurrence of `c` in `s`, or `-1`
(`strings.LastIndex(s, ":")`, and `last` of package `net`). -/
def lastIndexByte (s : List Char) (c : Char) : Int := lastIndexLoop c s 0 (-1)

/-- Scan behind `indexByte`. -/
def indexLoop (c : Char) : List Char → Nat → Int
  | [], _ => -1
  | x :: xs, i => if x = c then (i : Int) else indexLoop c xs (i + 1)

/-- The index of the first occurrence of `c` in `s`, or `-1`
(`bytealg.IndexByteString`). -/
def indexByte (s : List Char) (c : Char) : Int := indexLoop c s 0

/-- Line 181, `addr = testIP + addr[strings.LastIndex(addr, ":"):]`: the
address handed to `jackedDialer.DialContext`. `none` is the runtime fault of the
slice `addr[-1:]` when `addr` has no colon. -/
def rewriteAddr (testIP addr : String) : Option String :=
  let i := lastIndexByte addr.data ':'
  if 0 ≤ i then some (testIP ++ String.mk (addr.data.drop i.toNat)) else none

/-- The errors of `net.SplitHostPort`. -/
inductive AddrError where
  | missingPort
  | tooManyColons
  | missingBracket
  | unexpectedOpen
  | unexpectedClose
deriving DecidableEq, Repr

/-- The function `net.SplitHostPort`, which the dialer applies to the address it
is given: the host and the port of `host:port` or `[host]:port`. -/
def SplitHostPort (hostport : String) : Except AddrError (String × String) :=
  let s := hostport.data
  let i := lastIndexByte s ':'
  if i < 0 then .error .missingPort
  else if s.head? = some '[' then
    let close := indexByte s ']'
    if close < 0 then .error .missingBracket
    else if close + 1 = (s.length : Int) then .error .missingPort
    else if close + 1 = i then
      if 0 ≤ indexByte (s.drop 1) '[' then .error .unexpectedOpen
      else if 0 ≤ indexByte (s.drop (close + 1).toNat) ']' then .error .unexpectedClose
      else .ok (String.mk ((s.take close.toNat).drop 1), String.mk (s.drop (i + 1).toNat))
    else if s.get? (close + 1).toNat = some ':' then .error .tooManyColons
    else .error .missingPort
  else
    if 0 ≤ indexByte (s.take i.toNat) ':' then .error .tooManyColons
    else if 0 ≤ indexByte s '[' then .error .unexpectedOpen
    else if 0 ≤ indexByte s ']' then .error .unexpectedClose
    else .ok (String.mk (s.take i.toNat), String.mk (s.drop (i + 1).toNat))

/-! ## The dispatch loop of `test` (lines 130 to 148) and `assessWorker`

The goroutines are modelled by an interleaving semantics: a state of the pool
and one transition for every atomic action of the dispatcher (the goroutine
that runs `test`) and of a worker. The scheduler and the outcome of every fetch
are left open, so a statement about all reachable states holds for every
schedule and every behaviour of the network. The state is the one reached after
line 136: the workers are started and `workerGroup.Add(len(testIPs))` is done.
`parseIP` stands for `net.ParseIP` followed by `ip.String()`: `none` when the
entry does not parse, else the text handed to `assess`. `NewRequest` tells for
every target whether `http.NewRequest("GET", target, nil)` returns a request. -/

/-- The type `AssessParcel` (lines 150 to 155). The field `Wg` points at the one
`workerGroup` of `test` in every parcel; its counter is kept in the pool. -/
structure AssessParcel where
  OriginalContent : Body
  Target : String
  TestIP : String
deriving DecidableEq

/-- The control point of one `assessWorker` goroutine: blocked at
`for j := range jobs` (line 158); holding a parcel it received, lines 159 to 163
not yet run; having run them, `j.Wg.Done()` (line 164) not yet run; or returned,
the channel being closed and drained. -/
inductive Worker where
  | receiving
  | holding (j : AssessParcel)
  | finishing (j : AssessParcel)
  | exited
deriving DecidableEq

/-- The control point of the goroutine that runs `test`: in the loop of line
137 with the entries still to send; past `close(jobs)` and blocked in
`workerGroup.Wait()`; or returned. -/
inductive Dispatcher where
  | sending (rest : List String)
  | waiting
  | returned
deriving DecidableEq

/-- The state of the pool. `jobs` is the content of the buffered channel (oldest
first) and `cap` its capacity, `closed` whether `close(jobs)` has run, `counter`
the counter of `workerGroup`. `reports` lists the completed calls of `assess`
in order (the entry and the assessment it produced); `handled` lists the entries
for which line 164 has run. -/
structure Pool where
  main : Dispatcher
  cap : Nat
  jobs : List AssessParcel
  closed : Bool
  counter : Int
  workers : List Worker
  reports : List (String × Assessment)
  handled : List String

/-- The lines written to the results stream so far. -/
def Pool.stdout (s : Pool) : List String := s.reports.flatMap (fun r => r.2.stdout)

/-- The state after line 136: `len(testIPs)` slots in the channel, `*Threads`
workers started (none when the flag is not positive), the wait-group counter at
`len(testIPs)`, nothing sent yet. -/
def Pool.init (cfg : Config) (testIPs : List String) : Pool :=
  { main := .sending testIPs, cap := testIPs.length, jobs := [], closed := false,
    counter := (testIPs.length : Int), workers := List.replicate cfg.Threads.toNat .receiving,
    reports := [], handled := [] }

/-- One atomic action of a goroutine.
* `send`: line 138, possible while the channel has a free slot.
* `close`: line 146, after the last send.
* `wake`: `workerGroup.Wait()` (line 147) returns, possible when the counter is 0.
* `recv`: a worker receives the oldest parcel (line 158).
* `leave`: a worker leaves its loop, the channel being closed and empty.
* `skip`: lines 159 and 160 for an entry that `net.ParseIP` rejects.
* `probe`: lines 159 to 163 for an entry that parses: one call of `assess` that
  returns, with any outcome `res` of the fetch. A call that faults aborts the
  process and is no action of the pool.
* `done`: line 164. -/
inductive Step (cfg : Config) (NewRequest : String → Bool) (parseIP : String → Option String)
    (og : Body) (target : String) : Pool → Pool → Prop where
  | send (s : Pool) (ip : String) (rest : List String) :
      s.main = .sending (ip :: rest) → s.jobs.length < s.cap →
      Step cfg NewRequest parseIP og target s
        { s with main := .sending rest, jobs := s.jobs ++ [⟨og, target, ip⟩] }
  | close (s : Pool) :
      s.main = .sending [] →
      Step cfg NewRequest parseIP og target s { s with main := .waiting, closed := true }
  | wake (s : Pool) :
      s.main = .waiting → s.counter = 0 →
      Step cfg NewRequest parseIP og target s { s with main := .returned }
  | recv (s : Pool) (pre post : List Worker) (j : AssessParcel) (js : List AssessParcel) :
      s.workers = pre ++ Worker.receiving :: post → s.jobs = j :: js →
      Step cfg NewRequest parseIP og target s { s with workers := pre ++ Worker.holding j :: post, jobs := js }
  | leave (s : Pool) (pre post : List Worker) :
      s.workers = pre ++ Worker.receiving :: post → s.jobs = [] → s.closed = true →
      Step cfg NewRequest parseIP og target s { s with workers := pre ++ Worker.exited :: post }
  | skip (s : Pool) (pre post : List Worker) (j : AssessParcel) :
      s.workers = pre ++ Worker.holding j :: post → parseIP j.TestIP = none →
      Step cfg NewRequest parseIP og target s { s with workers := pre ++ Worker.finishing j :: post }
  | probe (s : Pool) (pre post : List Worker) (j : AssessParcel) (c : String)
      (res : Option Body) (a : Assessment) :
      s.workers = pre ++ Worker.holding j :: post → parseIP j.TestIP = some c →
      assess cfg j.OriginalContent j.Target c (NewRequest j.Target) res = some a →
      Step cfg NewRequest parseIP og target s
        { s with workers := pre ++ Worker.finishing j :: post,
                 reports := s.reports ++ [(j.TestIP, a)] }
  | done (s : Pool) (pre post : List Worker) (j : AssessParcel) :
      s.workers = pre ++ Worker.finishing j :: post →
      Step cfg NewRequest parseIP og target s
        { s with workers := pre ++ Worker.receiving :: post, counter := s.counter - 1,
                 handled := s.handled ++ [j.TestIP] }

/-- The states the pool can reach from the state after line 136. -/
def Reachable (cfg : Config) (NewRequest : String → Bool) (parseIP : String → Option String)
    (og : Body) (target : String) (testIPs : List String) (s : Pool) : Prop :=
  Relation.ReflTransGen (Step cfg NewRequest parseIP og target) (Pool.init cfg testIPs) s

/-- Lines 110 to 136 of `test`, as far as the dispatch depends on them: the
error of `http.NewRequest` on line 110 is not checked, so for a target it rejects
`req` is nil and line 111 faults (`none`) before anything is dispatched; else the
dispatch starts in `Pool.init`. -/
def dispatchStart (NewRequest : String → Bool) (cfg : Config) (target : String)
    (testIPs : List String) : Option Pool :=
  if NewRequest target then some (Pool.init cfg testIPs) else none

/-! ## Auxiliary definitions used in the proofs -/

/-- The list `|d|, |d+1|, ..., |d+k-1|`: a row of the distance matrix of a
string against itself. -/
def absRamp : Int → Nat → List Int
  | _, 0 => []
  | d, k + 1 => max d (-d) :: absRamp (d + 1) k

/-- A row of `k` cells whose `t`-th cell lies between `0` and `a + t`. -/
def RowBound : Int → Nat → List Int → Prop
  | _, 0, [] => True
  | a, k + 1, x :: xs => 0 ≤ x ∧ x ≤ a ∧ RowBound (a + 1) k xs
  | _, _, _ => False

/-- The bytes of an ASCII string literal, used to write example bodies. -/
def asciiBody (s : String) : Body := s.data.map (fun c => Fin.ofNat c.toNat)

/-- The percentage as the specification words it:
`100 − round((distance / comparable_length) × 100)`, rounding to the nearest
integer. -/
def specPercentage (distance matchBits : Int) : Int :=
  100 - round ((distance : ℚ) / (matchBits : ℚ) * 100)

/-- The entries still to be sent by the dispatcher. -/
def Dispatcher.pending : Dispatcher → List String
  | .sending rest => rest
  | _ => []

/-- The number of dispatcher actions left besides the sends. -/
def Dispatcher.weight : Dispatcher → Nat
  | .sending _ => 2
  | .waiting => 1
  | .returned => 0

/-- The parcel a worker holds, if any. -/
def Worker.parcel : Worker → List AssessParcel
  | .holding j => [j]
  | .finishing j => [j]
  | _ => []

/-- The entry of the parcel a worker has processed and not yet signalled. -/
def Worker.processed : Worker → List String
  | .finishing j => [j.TestIP]
  | _ => []

/-- Weight of a worker in the termination measure. -/
def Worker.weight : Worker → Nat
  | .receiving => 1
  | .holding _ => 3
  | .finishing _ => 2
  | .exited => 0

/-- The entries of the parcels held by the workers. -/
def inflight (ws : List Worker) : List String :=
  ws.flatMap (fun w => w.parcel.map AssessParcel.TestIP)

/-- The entries processed by a worker and not yet signalled. -/
def processedBy (ws : List Worker) : List String := ws.flatMap Worker.processed

/-- Sum of the worker weights. -/
def workersWeight (ws : List Worker) : Nat := (ws.map Worker.weight).sum

/-- The termination measure: every action of `Step` decreases it. -/
def Pool.measure (s : Pool) : Nat :=
  s.main.weight + 4 * s.main.pending.length + 3 * s.jobs.length + workersWeight s.workers

/-- The invariant of the pool for the candidate list `testIPs`. -/
structure Inv (cfg : Config) (NewRequest : String → Bool) (parseIP : String → Option String)
    (og : Body) (target : String) (testIPs : List String) (s : Pool) : Prop where
  cap_eq : s.cap = testIPs.length
  counter_eq : s.counter
    = ((s.main.pending.length + s.jobs.length + (inflight s.workers).length : Nat) : Int)
  entries : ((s.main.pending : Multiset String) + ((s.jobs.map AssessParcel.TestIP : List String)
      : Multiset String) + ((inflight s.workers : List String) : Multiset String)
      + ((s.handled : List String) : Multiset String)) = ((testIPs : List String) : Multiset String)
  reported : ((s.reports.map Prod.fst : List String) : Multiset String)
    = Multiset.filter (fun e => (parseIP e).isSome = true)
        (((processedBy s.workers : List String) : Multiset String)
          + ((s.handled : List String) : Multiset String))
  jobs_og : ∀ j ∈ s.jobs, j.OriginalContent = og ∧ j.Target = target
  held_og : ∀ w ∈ s.workers, ∀ j ∈ w.parcel, j.OriginalContent = og ∧ j.Target = target
  closed_iff : s.closed = true ↔ (s.main = .waiting ∨ s.main = .returned)
  returned_zero : s.main = .returned → s.counter = 0
  exited_drained : Worker.exited ∈ s.workers → s.closed = true ∧ s.jobs = []
  pool_size : s.workers.length = cfg.Threads.toNat
  report_real : ∀ r ∈ s.reports, ∃ (c : String) (res : Option Body),
    parseIP r.1 = some c ∧ assess cfg og target c (NewRequest target) res = some r.2


/-- A stand-in for `net.ParseIP` on the example list: only `192.0.2.1` parses. -/
def exampleParse (e : String) : Option String :=
  if e = "192.0.2.1" then some "192.0.2.1" else none

/-- A stand-in for `http.NewRequest` on the example: the target of the run is
accepted. -/
def exampleNewRequest (t : String) : Bool := t == "https://example.org"

/-- The flags of the example run: one worker. -/
def exampleConfig : Config :=
  { DefBits := 500, Threshold := 50, Threads := 1, ShowSample := false }

/-- The state in which the example run of the list `192.0.2.1`, `garbage` ends:
`test` has returned and one result line is written. -/
def examplePool : Pool :=
  { main := .returned, cap := 2, jobs := [], closed := true, counter := 0,
    workers := [Worker.receiving],
    reports := [("192.0.2.1",
      { matchBits := 5, distance := some 0, matchy := some 100,
        stdout := ["match 192.0.2.1 https://example.org 100 percent in 5 bytes\n"] })],
    handled := ["192.0.2.1", "garbage"] }

/-! ## Properties -/

/-! ### The comparable length and the result line -/

theorem computeMatchBits_min (DefBits : Int) (og jacked : Body) :
    computeMatchBits DefBits og jacked
      = min DefBits (min (og.length : Int) (jacked.length : Int)) := by
  unfold computeMatchBits
  simp only []
  split_ifs with h1 h2 <;> omega

theorem logPrint_bytes (a : List Operand) (x : String) (h : Sprint a = x ++ " bytes") :
    logPrint a = x ++ " bytes\n" := by
  unfold logPrint
  simp only [h]
  have hb : (x ++ " bytes").back ≠ '\n' := by
    rw [String.back_eq]
    have hd : (x ++ " bytes").data = (x.data ++ [' ', 'b', 'y', 't', 'e']) ++ ['s'] := by
      simp [String.data_append]
    rw [hd, List.getLastD_concat]
    decide
  rw [if_pos (Or.inr hb)]
  rw [String.append_assoc]
  rfl

theorem sprint_line (outcome testIP target : String) (p n : Int) :
    Sprint [.str outcome, .str testIP, .str " ", .str target, .str " ",
        .int p, .str " percent in ", .int n, .str " bytes"]
      = (outcome ++ testIP ++ " " ++ target ++ " " ++ toString p ++ " percent in "
          ++ toString n) ++ " bytes" := by
  simp [Sprint, doPrint, Operand.isString, Operand.render, String.append_assoc]

theorem logPrint_line (outcome testIP target : String) (p n : Int) :
    logPrint [.str outcome, .str testIP, .str " ", .str target, .str " ",
        .int p, .str " percent in ", .int n, .str " bytes"]
      = outcome ++ testIP ++ " " ++ target ++ " " ++ toString p ++ " percent in "
          ++ toString n ++ " bytes\n" := by
  rw [logPrint_bytes _ _ (sprint_line outcome testIP target p n)]

/-! ### The edit distance of a string to itself is 0 -/

theorem row0_eq_absRamp (s k : Nat) :
    (List.range' s k).map (fun (j : Nat) => (j : Int) * DefaultOptions.InsCost) = absRamp s k := by
  induction k generalizing s with
  | zero => rfl
  | succ k ih =>
    simp only [List.range'_succ, List.map_cons, absRamp]
    have := ih (s + 1)
    simp only [Nat.cast_add, Nat.cast_one] at this
    rw [this]
    congr 1
    simp [DefaultOptions]

theorem absRamp_getLastD (d : Int) (k : Nat) :
    (absRamp d (k + 1)).getLastD 0 = max (d + k) (-(d + k)) := by
  induction k generalizing d with
  | zero => simp [absRamp]
  | succ k ih =>
    rw [absRamp, List.getLastD_cons]
    have h := ih (d + 1)
    rw [absRamp, List.getLastD_cons] at h
    rw [absRamp, List.getLastD_cons, h]
    push_cast
    rw [show d + 1 + (k : Int) = d + ((k : Int) + 1) by ring]


theorem fillRow_ident (s : Rune) (ts : List Rune) (d : Int)
    (hdiag : ∀ t : Nat, d + t = 0 → ts[t]? = some s) :
    fillRow DefaultOptions s ts (absRamp d (ts.length + 1)) (max (d - 1) (-(d - 1)))
      = absRamp d ts.length := by
  induction ts generalizing d with
  | nil => simp [fillRow, absRamp]
  | cons t ts ih =>
    have hrec : ∀ u : Nat, d + 1 + u = 0 → ts[u]? = some s := by
      intro u hu
      have := hdiag (u + 1) (by push_cast; omega)
      simpa using this
    have hcell : min (max (d + 1) (-(d + 1)) + DefaultOptions.DelCost)
        (min (if DefaultOptions.Matches s t then max d (-d)
              else max d (-d) + DefaultOptions.SubCost)
          (max (d - 1) (-(d - 1)) + DefaultOptions.InsCost)) = max d (-d) := by
      by_cases hd : d = 0
      · have h0 := hdiag 0 (by simpa using hd)
        simp at h0
        subst h0 hd
        simp [DefaultOptions]
      · simp only [DefaultOptions]
        split_ifs <;> omega
    simp only [List.length_cons, absRamp, fillRow]
    rw [hcell]
    congr 1
    have := ih (d + 1) hrec
    simp only [absRamp, add_sub_cancel_right] at this
    exact this

theorem nextRow_ident (target : List Rune) (i : Nat) (s : Rune)
    (hs : target[i]? = some s) :
    nextRow DefaultOptions target (i + 1) s (absRamp (-(i : Int)) (target.length + 1))
      = absRamp (-((i + 1 : Nat) : Int)) (target.length + 1) := by
  unfold nextRow
  have h := fillRow_ident s target (-(i : Int)) (by
    intro t ht
    have : t = i := by omega
    subst this; exact hs)
  have e1 : max (-(i : Int) - 1) (-(-(i : Int) - 1)) = (((i + 1 : Nat) : Int)) * DefaultOptions.DelCost := by
    simp only [DefaultOptions]; push_cast; omega
  rw [e1] at h
  rw [h]
  rw [absRamp]
  congr 1
  · simp only [DefaultOptions]; push_cast; omega
  · congr 1; push_cast; omega

theorem rowsLoop_ident (pre ss : List Rune) :
    rowsLoop DefaultOptions (pre ++ ss) (pre.length + 1) ss
        (absRamp (-(pre.length : Int)) ((pre ++ ss).length + 1))
      = absRamp (-((pre ++ ss).length : Int)) ((pre ++ ss).length + 1) := by
  induction ss generalizing pre with
  | nil => simp [rowsLoop]
  | cons s ss ih =>
    rw [rowsLoop]
    rw [nextRow_ident (pre ++ s :: ss) pre.length s (by
      rw [List.getElem?_append_right (le_refl _)]; simp)]
    have := ih (pre ++ [s])
    simp only [List.append_assoc, List.singleton_append, List.length_append,
      List.length_singleton] at this
    simpa using this

theorem distance_self (xs : List Rune) : DistanceForStrings xs xs DefaultOptions = 0 := by
  unfold DistanceForStrings
  simp only [List.range_eq_range']
  rw [row0_eq_absRamp]
  have := rowsLoop_ident [] xs
  simp only [List.nil_append, List.length_nil, Nat.cast_zero, neg_zero, zero_add] at this
  simp only [Nat.cast_zero]
  rw [this, absRamp_getLastD]
  omega


/-! ### The edit distance lies between 0 and the sum of the lengths -/

theorem fillRow_bound (s : Rune) (ts : List Rune) (a : Int) (prev : List Int) (cl : Int)
    (hprev : RowBound a (ts.length + 1) prev) (hcl : 0 ≤ cl) :
    RowBound (a + 2) ts.length (fillRow DefaultOptions s ts prev cl) := by
  induction ts generalizing a prev cl with
  | nil =>
    match prev, hprev with
    | [x], _ => simp [fillRow, RowBound]
  | cons t ts ih =>
    match prev, hprev with
    | pd :: p :: ps, ⟨h0, h1, h2, h3, h4⟩ =>
      simp only [fillRow, List.length_cons, RowBound]
      have hc0 : 0 ≤ min (p + DefaultOptions.DelCost)
          (min (if DefaultOptions.Matches s t then pd else pd + DefaultOptions.SubCost)
            (cl + DefaultOptions.InsCost)) := by
        simp only [DefaultOptions]; split_ifs <;> omega
      have hc1 : min (p + DefaultOptions.DelCost)
          (min (if DefaultOptions.Matches s t then pd else pd + DefaultOptions.SubCost)
            (cl + DefaultOptions.InsCost)) ≤ a + 2 := by
        simp only [DefaultOptions]; split_ifs <;> omega
      refine ⟨hc0, hc1, ?_⟩
      have := ih (a + 1) (p :: ps) _ ⟨h2, h3, h4⟩ hc0
      rw [show a + 2 + 1 = a + 1 + 2 by ring]
      exact this

theorem nextRow_bound (target : List Rune) (i : Nat) (s : Rune) (prev : List Int)
    (hprev : RowBound (i : Int) (target.length + 1) prev) :
    RowBound ((i + 1 : Nat) : Int) (target.length + 1)
      (nextRow DefaultOptions target (i + 1) s prev) := by
  unfold nextRow
  simp only [RowBound]
  refine ⟨?_, ?_, ?_⟩
  · simp only [DefaultOptions]; push_cast; omega
  · simp only [DefaultOptions]; push_cast; omega
  · have := fillRow_bound s target i prev (((i + 1 : Nat) : Int) * DefaultOptions.DelCost) hprev
      (by simp only [DefaultOptions]; push_cast; omega)
    rw [show (((i + 1 : Nat) : Int)) + 1 = (i : Int) + 2 by push_cast; ring]
    exact this

theorem rowsLoop_bound (target : List Rune) (i : Nat) (ss : List Rune) (prev : List Int)
    (hprev : RowBound (i : Int) (target.length + 1) prev) :
    RowBound ((i + ss.length : Nat) : Int) (target.length + 1)
      (rowsLoop DefaultOptions target (i + 1) ss prev) := by
  induction ss generalizing i prev with
  | nil => simpa [rowsLoop] using hprev
  | cons s ss ih =>
    rw [rowsLoop]
    have := ih (i + 1) _ (nextRow_bound target i s prev hprev)
    rw [show i + (s :: ss).length = i + 1 + ss.length by simp; omega]
    exact this

theorem rowBound_getLastD (a : Int) (k : Nat) (l : List Int) (h : RowBound a (k + 1) l) :
    0 ≤ l.getLastD 0 ∧ l.getLastD 0 ≤ a + k := by
  induction k generalizing a l with
  | zero =>
    match l, h with
    | [x], ⟨h0, h1, _⟩ => simp [List.getLastD]; omega
  | succ k ih =>
    match l, h with
    | x :: y :: ys, ⟨_, _, h2⟩ =>
      have := ih (a + 1) (y :: ys) h2
      rw [List.getLastD_cons, List.getLastD_cons]
      rw [List.getLastD_cons] at this
      push_cast
      omega

theorem row0_bound (s k : Nat) :
    RowBound (s : Int) k
      ((List.range' s k).map (fun (j : Nat) => (j : Int) * DefaultOptions.InsCost)) := by
  induction k generalizing s with
  | zero => simp [RowBound]
  | succ k ih =>
    simp only [List.range'_succ, List.map_cons, RowBound]
    refine ⟨?_, ?_, ?_⟩
    · simp only [DefaultOptions]; omega
    · simp only [DefaultOptions]; omega
    · have := ih (s + 1)
      simpa using this

theorem distance_bounds (source target : List Rune) :
    0 ≤ DistanceForStrings source target DefaultOptions
    ∧ DistanceForStrings source target DefaultOptions
        ≤ (source.length : Int) + (target.length : Int) := by
  unfold DistanceForStrings
  simp only [List.range_eq_range']
  have h0 := row0_bound 0 (target.length + 1)
  have h := rowsLoop_bound target 0 source _ h0
  have := rowBound_getLastD _ _ _ h
  simp only [zero_add] at this
  constructor
  · exact this.1
  · have := this.2
    push_cast at this ⊢
    omega


/-! ### Correctness of the `float32` rounding -/

theorem log2Loop_spec (fuel n : Nat) (h1 : 1 ≤ n) (hf : n ≤ fuel) :
    2 ^ log2Loop fuel n ≤ n ∧ n < 2 ^ (log2Loop fuel n + 1) := by
  induction fuel generalizing n with
  | zero => omega
  | succ fuel ih =>
    unfold log2Loop
    split_ifs with h2
    · have hdiv1 : 1 ≤ n / 2 := by omega
      have hdivf : n / 2 ≤ fuel := by omega
      obtain ⟨ha, hb⟩ := ih (n / 2) hdiv1 hdivf
      constructor
      · rw [pow_succ]; omega
      · rw [pow_succ]; omega
    · simp; omega

theorem ilog2_spec (n : Nat) (h1 : 1 ≤ n) : 2 ^ ilog2 n ≤ n ∧ n < 2 ^ (ilog2 n + 1) :=
  log2Loop_spec n n h1 (le_refl n)

theorem scale_spec (n d : Nat) (s : Int) (hd : 0 < d) :
    0 < (scale n d s).2
    ∧ (((scale n d s).1 : ℚ) / ((scale n d s).2 : ℚ) = (n : ℚ) / (d : ℚ) * (2 : ℚ) ^ s) := by
  unfold scale
  split_ifs with hs
  · refine ⟨hd, ?_⟩
    obtain ⟨k, rfl⟩ := Int.eq_ofNat_of_zero_le hs
    simp only [Int.toNat_ofNat, zpow_natCast]
    push_cast
    ring
  · have hs' : 0 ≤ -s := by omega
    obtain ⟨k, hk⟩ := Int.eq_ofNat_of_zero_le hs'
    have hsk : s = -(k : Int) := by omega
    subst hsk
    simp only [neg_neg, Int.toNat_ofNat, zpow_neg, zpow_natCast]
    refine ⟨by positivity, ?_⟩
    push_cast
    have hd' : (d : ℚ) ≠ 0 := by exact_mod_cast hd.ne'
    field_simp

theorem roundHalfEven_spec (num den : Nat) (hden : 0 < den) :
    |((roundHalfEven num den : Nat) : ℚ) - (num : ℚ) / (den : ℚ)| ≤ 1 / 2 := by
  have hdq : (0 : ℚ) < den := by exact_mod_cast hden
  have hsplit : (num : ℚ) / den = (num / den : Nat) + ((num % den : Nat) : ℚ) / den := by
    have := Nat.div_add_mod num den
    have h2 : (num : ℚ) = den * (num / den : Nat) + (num % den : Nat) := by exact_mod_cast this.symm
    field_simp
    linarith
  have hr : ((num % den : Nat) : ℚ) < den := by exact_mod_cast Nat.mod_lt num hden
  have hr0 : (0 : ℚ) ≤ ((num % den : Nat) : ℚ) := by positivity
  unfold roundHalfEven
  simp only
  rw [hsplit]
  split_ifs with h1 h2 h3
  · have : (2 : ℚ) * (num % den : Nat) < den := by exact_mod_cast h1
    rw [abs_le]; constructor
    · rw [sub_add_cancel_left, neg_le_neg_iff, div_le_iff₀ hdq]; linarith
    · rw [sub_add_cancel_left]; 
      have : 0 ≤ ((num % den : Nat) : ℚ) / den := by positivity
      linarith
  · have : (den : ℚ) < 2 * (num % den : Nat) := by exact_mod_cast h2
    have hlt : ((num % den : Nat) : ℚ) / den < 1 := by rw [div_lt_one hdq]; exact hr
    have hgt : 1 / 2 ≤ ((num % den : Nat) : ℚ) / den := by
      rw [le_div_iff₀ hdq]; linarith
    push_cast
    rw [abs_le]; constructor <;> linarith
  · have h2r : 2 * (num % den) = den := by omega
    have : (2 : ℚ) * (num % den : Nat) = den := by exact_mod_cast h2r
    have heq : ((num % den : Nat) : ℚ) / den = 1 / 2 := by
      rw [div_eq_iff hdq.ne']; linarith
    rw [heq, abs_le]; constructor <;> linarith
  · have h2r : 2 * (num % den) = den := by omega
    have : (2 : ℚ) * (num % den : Nat) = den := by exact_mod_cast h2r
    have heq : ((num % den : Nat) : ℚ) / den = 1 / 2 := by
      rw [div_eq_iff hdq.ne']; linarith
    push_cast
    rw [heq, abs_le]; constructor <;> linarith


theorem two_zpow_pos (k : Int) : (0 : ℚ) < (2 : ℚ) ^ k := zpow_pos (by norm_num) k

theorem floorLog2_spec (n d : Nat) (hn : 0 < n) (hd : 0 < d) :
    (2 : ℚ) ^ floorLog2 n d ≤ (n : ℚ) / d ∧ (n : ℚ) / d < (2 : ℚ) ^ (floorLog2 n d + 1) := by
  obtain ⟨hna, hnb⟩ := ilog2_spec n hn
  obtain ⟨hda, hdb⟩ := ilog2_spec d hd
  have hnq : (0 : ℚ) < n := by exact_mod_cast hn
  have hdq : (0 : ℚ) < d := by exact_mod_cast hd
  have hna' : (2 : ℚ) ^ (ilog2 n : Int) ≤ n := by rw [zpow_natCast]; exact_mod_cast hna
  have hnb' : (n : ℚ) < (2 : ℚ) ^ ((ilog2 n : Int) + 1) := by
    rw [show ((ilog2 n : Int) + 1) = ((ilog2 n + 1 : Nat) : Int) by push_cast; rfl, zpow_natCast]
    exact_mod_cast hnb
  have hda' : (2 : ℚ) ^ (ilog2 d : Int) ≤ d := by rw [zpow_natCast]; exact_mod_cast hda
  have hdb' : (d : ℚ) < (2 : ℚ) ^ ((ilog2 d : Int) + 1) := by
    rw [show ((ilog2 d : Int) + 1) = ((ilog2 d + 1 : Nat) : Int) by push_cast; rfl, zpow_natCast]
    exact_mod_cast hdb
  have h2 : (2 : ℚ) ≠ 0 := by norm_num
  -- bounds of the quotient by the candidate exponent
  have hup : (n : ℚ) / d < (2 : ℚ) ^ ((ilog2 n : Int) - (ilog2 d : Int) + 1) := by
    rw [show (ilog2 n : Int) - (ilog2 d : Int) + 1 = ((ilog2 n : Int) + 1) - (ilog2 d : Int) by ring,
      zpow_sub₀ h2, div_lt_div_iff₀ hdq (two_zpow_pos _)]
    calc (n : ℚ) * 2 ^ (ilog2 d : Int) ≤ n * d := by
          apply mul_le_mul_of_nonneg_left hda' hnq.le
      _ < 2 ^ ((ilog2 n : Int) + 1) * d := by
          apply mul_lt_mul_of_pos_right hnb' hdq
  have hlo : (2 : ℚ) ^ ((ilog2 n : Int) - (ilog2 d : Int) - 1) ≤ (n : ℚ) / d := by
    rw [show (ilog2 n : Int) - (ilog2 d : Int) - 1 = (ilog2 n : Int) - ((ilog2 d : Int) + 1) by ring,
      zpow_sub₀ h2, div_le_div_iff₀ (two_zpow_pos _) hdq]
    calc (2 : ℚ) ^ (ilog2 n : Int) * d ≤ n * d := by
          apply mul_le_mul_of_nonneg_right hna' hdq.le
      _ ≤ n * 2 ^ ((ilog2 d : Int) + 1) := by
          apply mul_le_mul_of_nonneg_left hdb'.le hnq.le
  obtain ⟨hs2, hsq⟩ := scale_spec n d (-((ilog2 n : Int) - (ilog2 d : Int))) hd
  have hs2q : (0 : ℚ) < ((scale n d (-((ilog2 n : Int) - (ilog2 d : Int)))).2 : ℚ) := by
    exact_mod_cast hs2
  unfold floorLog2
  simp only
  split_ifs with hlt
  · have hq : (((scale n d (-((ilog2 n : Int) - (ilog2 d : Int)))).1 : ℚ)
        / ((scale n d (-((ilog2 n : Int) - (ilog2 d : Int)))).2 : ℚ)) < 1 := by
      rw [div_lt_one hs2q]; exact_mod_cast hlt
    rw [hsq, zpow_neg, ← div_eq_mul_inv, div_lt_one (two_zpow_pos _)] at hq
    refine ⟨hlo, ?_⟩
    rw [sub_add_cancel]
    exact hq
  · have hq : 1 ≤ (((scale n d (-((ilog2 n : Int) - (ilog2 d : Int)))).1 : ℚ)
        / ((scale n d (-((ilog2 n : Int) - (ilog2 d : Int)))).2 : ℚ)) := by
      rw [one_le_div hs2q]; exact_mod_cast (not_lt.mp hlt)
    rw [hsq, zpow_neg, ← div_eq_mul_inv, one_le_div (two_zpow_pos _)] at hq
    exact ⟨hq, hup⟩


theorem round_zero (neg : Bool) (d : Nat) (e : Int) (hd : 0 < d) :
    F32.round neg 0 d e = some ⟨neg, 0, 0⟩ := by
  unfold F32.round
  rw [if_neg (by omega)]
  simp

theorem round_spec (neg : Bool) (n d : Nat) (e : Int) (hn : 0 < n) (hd : 0 < d)
    (hlo : (2 : ℚ) ^ (-126 : Int) ≤ (n : ℚ) / d * (2 : ℚ) ^ e)
    (hhi : (n : ℚ) / d * (2 : ℚ) ^ e < (2 : ℚ) ^ (127 : Int)) :
    ∃ r : F32, F32.round neg n d e = some r ∧ r.neg = neg ∧ 0 < r.man
      ∧ |r.mag - (n : ℚ) / d * (2 : ℚ) ^ e| ≤ (n : ℚ) / d * (2 : ℚ) ^ e * (2 : ℚ) ^ (-24 : Int) := by
  obtain ⟨hL1, hL2⟩ := floorLog2_spec n d hn hd
  have h2 : (2 : ℚ) ≠ 0 := by norm_num
  have h12 : (1 : ℚ) < 2 := by norm_num
  have he := two_zpow_pos e
  set L := floorLog2 n d with hLdef
  -- the value lies in the binade of exponent `L + e`
  have hv1 : (2 : ℚ) ^ (L + e) ≤ (n : ℚ) / d * (2 : ℚ) ^ e := by
    rw [zpow_add₀ h2]; exact mul_le_mul_of_nonneg_right hL1 he.le
  have hv2 : (n : ℚ) / d * (2 : ℚ) ^ e < (2 : ℚ) ^ (L + e + 1) := by
    rw [show L + e + 1 = (L + 1) + e by ring, zpow_add₀ h2]
    exact mul_lt_mul_of_pos_right hL2 he
  have hLe_lo : -126 ≤ L + e := by
    have := lt_of_le_of_lt hlo hv2
    rw [zpow_lt_zpow_iff_right₀ h12] at this
    omega
  have hLe_hi : L + e ≤ 126 := by
    have := lt_of_le_of_lt hv1 hhi
    rw [zpow_lt_zpow_iff_right₀ h12] at this
    omega
  have hqe : max (L + e - 23) (-149) = L + e - 23 := by omega
  obtain ⟨hs2, hsq⟩ := scale_spec n d (e - (L + e - 23)) hd
  have hround := roundHalfEven_spec (scale n d (e - (L + e - 23))).1
    (scale n d (e - (L + e - 23))).2 hs2
  rw [hsq] at hround
  set m := roundHalfEven (scale n d (e - (L + e - 23))).1 (scale n d (e - (L + e - 23))).2
    with hmdef
  have hx : (n : ℚ) / d * (2 : ℚ) ^ (e - (L + e - 23)) * (2 : ℚ) ^ (L + e - 23)
      = (n : ℚ) / d * (2 : ℚ) ^ e := by
    rw [mul_assoc, ← zpow_add₀ h2]; congr 2; ring
  have hxlo : (2 : ℚ) ^ (23 : Int) ≤ (n : ℚ) / d * (2 : ℚ) ^ (e - (L + e - 23)) := by
    rw [show e - (L + e - 23) = -L + 23 by ring, zpow_add₀ h2, ← mul_assoc]
    apply le_mul_of_one_le_left (two_zpow_pos _).le
    rw [zpow_neg, ← div_eq_mul_inv, one_le_div (two_zpow_pos _)]
    exact hL1
  refine ⟨⟨neg, m, L + e - 23⟩, ?_, rfl, ?_, ?_⟩
  · unfold F32.round
    rw [if_neg (by omega), if_neg (by omega)]
    simp only [← hLdef, hqe, ← hmdef]
    rw [if_neg (by omega)]
  · have hm : (2 : ℚ) ^ (23 : Int) - 1 / 2 ≤ (m : ℚ) := by
      have := (abs_le.mp hround).1
      linarith
    have : (0 : ℚ) < (m : ℚ) := by
      have : (1 : ℚ) ≤ (2 : ℚ) ^ (23 : Int) := by norm_num
      linarith
    exact_mod_cast this
  · have hq := two_zpow_pos (L + e - 23)
    have hmag : (F32.mag ⟨neg, m, L + e - 23⟩) - (n : ℚ) / d * (2 : ℚ) ^ e
        = ((m : ℚ) - (n : ℚ) / d * (2 : ℚ) ^ (e - (L + e - 23))) * (2 : ℚ) ^ (L + e - 23) := by
      rw [sub_mul, hx]; rfl
    rw [hmag, abs_mul, abs_of_pos hq]
    calc |(m : ℚ) - (n : ℚ) / d * (2 : ℚ) ^ (e - (L + e - 23))| * (2 : ℚ) ^ (L + e - 23)
        ≤ 1 / 2 * (2 : ℚ) ^ (L + e - 23) := mul_le_mul_of_nonneg_right hround hq.le
      _ = (2 : ℚ) ^ (L + e) * (2 : ℚ) ^ (-24 : Int) := by
          rw [← zpow_add₀ h2, show L + e + -24 = (L + e - 23) + (-1) by ring, zpow_add₀ h2]
          norm_num
          ring
      _ ≤ (n : ℚ) / d * (2 : ℚ) ^ e * (2 : ℚ) ^ (-24 : Int) :=
          mul_le_mul_of_nonneg_right hv1 (two_zpow_pos _).le


theorem ofInt_zero : F32.ofInt 0 = some ⟨false, 0, 0⟩ := by decide

theorem ofInt_hundred : F32.ofInt 100 = some ⟨false, 13107200, -17⟩ := by decide

theorem ofInt_spec (z : Int) (hz : 0 < z) (hhi : z < 2 ^ 64) :
    ∃ r : F32, F32.ofInt z = some r ∧ r.neg = false ∧ 0 < r.man
      ∧ |r.mag - (z : ℚ)| ≤ (z : ℚ) * (2 : ℚ) ^ (-24 : Int) := by
  obtain ⟨n, rfl⟩ := Int.eq_ofNat_of_zero_le hz.le
  have hn : 0 < n := by omega
  have hnq : (1 : ℚ) ≤ (n : ℚ) := by exact_mod_cast hn
  have hnhi : (n : ℚ) < 2 ^ 64 := by exact_mod_cast hhi
  have hv : (n : ℚ) / (1 : Nat) * (2 : ℚ) ^ (0 : Int) = (n : ℚ) := by simp
  obtain ⟨r, hr, hneg, hman, herr⟩ := round_spec (decide ((n : Int) < 0)) n 1 0 hn (by norm_num)
    (by rw [hv]; exact le_trans (by norm_num) hnq)
    (by rw [hv]; exact lt_trans hnhi (by norm_num))
  rw [hv] at herr
  refine ⟨r, ?_, ?_, hman, ?_⟩
  · unfold F32.ofInt; simpa using hr
  · rw [hneg]; simp
  · simpa using herr

theorem mag_pos (x : F32) (hx : 0 < x.man) : 0 < x.mag := by
  unfold F32.mag
  have : (0 : ℚ) < (x.man : ℚ) := by exact_mod_cast hx
  exact mul_pos this (two_zpow_pos _)

theorem div_spec (x y : F32) (hx : 0 < x.man) (hy : 0 < y.man)
    (hlo : (2 : ℚ) ^ (-126 : Int) ≤ x.mag / y.mag) (hhi : x.mag / y.mag < (2 : ℚ) ^ (127 : Int)) :
    ∃ r : F32, F32.div x y = some r ∧ r.neg = xor x.neg y.neg ∧ 0 < r.man
      ∧ |r.mag - x.mag / y.mag| ≤ x.mag / y.mag * (2 : ℚ) ^ (-24 : Int) := by
  have hv : (x.man : ℚ) / (y.man : ℚ) * (2 : ℚ) ^ (x.exp - y.exp) = x.mag / y.mag := by
    unfold F32.mag
    have hyq : (y.man : ℚ) ≠ 0 := by exact_mod_cast hy.ne'
    have := (two_zpow_pos y.exp).ne'
    rw [zpow_sub₀ (by norm_num : (2 : ℚ) ≠ 0)]
    field_simp
  obtain ⟨r, hr, hneg, hman, herr⟩ := round_spec (xor x.neg y.neg) x.man y.man (x.exp - y.exp)
    hx hy (by rw [hv]; exact hlo) (by rw [hv]; exact hhi)
  rw [hv] at herr
  exact ⟨r, hr, hneg, hman, herr⟩

theorem div_zero_num (x y : F32) (hx : x.man = 0) (hy : 0 < y.man) :
    F32.div x y = some ⟨xor x.neg y.neg, 0, 0⟩ := by
  unfold F32.div
  rw [hx]
  exact round_zero _ _ _ hy

theorem mul_spec (x y : F32) (hx : 0 < x.man) (hy : 0 < y.man)
    (hlo : (2 : ℚ) ^ (-126 : Int) ≤ x.mag * y.mag) (hhi : x.mag * y.mag < (2 : ℚ) ^ (127 : Int)) :
    ∃ r : F32, F32.mul x y = some r ∧ r.neg = xor x.neg y.neg ∧ 0 < r.man
      ∧ |r.mag - x.mag * y.mag| ≤ x.mag * y.mag * (2 : ℚ) ^ (-24 : Int) := by
  have hv : ((x.man * y.man : Nat) : ℚ) / ((1 : Nat) : ℚ) * (2 : ℚ) ^ (x.exp + y.exp)
      = x.mag * y.mag := by
    unfold F32.mag
    rw [zpow_add₀ (by norm_num : (2 : ℚ) ≠ 0)]
    push_cast
    ring
  obtain ⟨r, hr, hneg, hman, herr⟩ := round_spec (xor x.neg y.neg) (x.man * y.man) 1
    (x.exp + y.exp) (Nat.mul_pos hx hy) (by norm_num) (by rw [hv]; exact hlo) (by rw [hv]; exact hhi)
  rw [hv] at herr
  exact ⟨r, hr, hneg, hman, herr⟩

theorem mul_zero_left (x y : F32) (hx : x.man = 0) :
    F32.mul x y = some ⟨xor x.neg y.neg, 0, 0⟩ := by
  unfold F32.mul
  rw [hx, Nat.zero_mul]
  exact round_zero _ _ _ (by norm_num)

theorem toInt_spec (x : F32) (hneg : x.neg = false) :
    ((x.toInt : Int) : ℚ) ≤ x.mag ∧ x.mag < ((x.toInt : Int) : ℚ) + 1 := by
  obtain ⟨hs2, hsq⟩ := scale_spec x.man 1 x.exp (by norm_num)
  have hmag : x.mag = ((scale x.man 1 x.exp).1 : ℚ) / ((scale x.man 1 x.exp).2 : ℚ) := by
    rw [hsq]; unfold F32.mag; simp
  have hfl := Nat.floor_div_eq_div (α := ℚ) (scale x.man 1 x.exp).1 (scale x.man 1 x.exp).2
  have hnn : (0 : ℚ) ≤ ((scale x.man 1 x.exp).1 : ℚ) / ((scale x.man 1 x.exp).2 : ℚ) := by
    positivity
  unfold F32.toInt
  simp only [hneg, Bool.false_eq_true, if_false]
  rw [hmag, ← hfl]
  push_cast
  exact ⟨Nat.floor_le hnn, Nat.lt_floor_add_one _⟩


/-! ### Error of the percentage computation of line 232 -/

theorem rel_bounds (r v u : ℚ) (h : |r - v| ≤ v * u) : v * (1 - u) ≤ r ∧ r ≤ v * (1 + u) := by
  obtain ⟨h1, h2⟩ := abs_le.mp h
  constructor <;> linarith

/-- Error propagation through `float32(float32(d)/float32(m))*100`. -/
theorem chain_bounds (D M A B Q P u : ℚ) (hu0 : 0 < u) (hu : u ≤ 1 / 16)
    (hD : 0 ≤ D) (hM : 0 < M)
    (hA : D * (1 - u) ≤ A ∧ A ≤ D * (1 + u))
    (hB : M * (1 - u) ≤ B ∧ B ≤ M * (1 + u))
    (hQ : A / B * (1 - u) ≤ Q ∧ Q ≤ A / B * (1 + u))
    (hP : Q * 100 * (1 - u) ≤ P ∧ P ≤ Q * 100 * (1 + u)) :
    100 * D / M * (1 - 8 * u) ≤ P ∧ P ≤ 100 * D / M * (1 + 8 * u) := by
  have hB0 : 0 < B := lt_of_lt_of_le (mul_pos hM (by linarith)) hB.1
  have hX : 0 ≤ D / M := div_nonneg hD hM.le
  have hXM : D / M * M = D := div_mul_cancel₀ D hM.ne'
  have hA0 : 0 ≤ A := le_trans (mul_nonneg hD (by linarith)) hA.1
  have hW0 : 0 ≤ A / B := div_nonneg hA0 hB0.le
  have hWup : A / B ≤ D / M * (1 + 3 * u) := by
    rw [div_le_iff₀ hB0]
    have h1 : D / M * (1 + 3 * u) * (M * (1 - u)) ≤ D / M * (1 + 3 * u) * B :=
      mul_le_mul_of_nonneg_left hB.1 (mul_nonneg hX (by linarith))
    have h2 : D / M * (1 + 3 * u) * (M * (1 - u)) = D * ((1 + 3 * u) * (1 - u)) := by
      field_simp
      ring
    have h3 : D * (1 + u) ≤ D * ((1 + 3 * u) * (1 - u)) := by
      apply mul_le_mul_of_nonneg_left _ hD
      nlinarith
    linarith [hA.2]
  have hWlo : D / M * (1 - 2 * u) ≤ A / B := by
    rw [le_div_iff₀ hB0]
    have h1 : D / M * (1 - 2 * u) * B ≤ D / M * (1 - 2 * u) * (M * (1 + u)) :=
      mul_le_mul_of_nonneg_left hB.2 (mul_nonneg hX (by linarith))
    have h2 : D / M * (1 - 2 * u) * (M * (1 + u)) = D * ((1 - 2 * u) * (1 + u)) := by
      field_simp
      ring
    have h3 : D * ((1 - 2 * u) * (1 + u)) ≤ D * (1 - u) := by
      apply mul_le_mul_of_nonneg_left _ hD
      nlinarith
    linarith [hA.1]
  have hQup : Q ≤ D / M * (1 + 5 * u) := by
    have h1 : A / B * (1 + u) ≤ D / M * (1 + 3 * u) * (1 + u) :=
      mul_le_mul_of_nonneg_right hWup (by linarith)
    have h2 : D / M * (1 + 3 * u) * (1 + u) ≤ D / M * (1 + 5 * u) := by
      rw [mul_assoc]
      apply mul_le_mul_of_nonneg_left _ hX
      nlinarith
    linarith [hQ.2]
  have hQlo : D / M * (1 - 3 * u) ≤ Q := by
    have h1 : D / M * (1 - 2 * u) * (1 - u) ≤ A / B * (1 - u) :=
      mul_le_mul_of_nonneg_right hWlo (by linarith)
    have h2 : D / M * (1 - 3 * u) ≤ D / M * (1 - 2 * u) * (1 - u) := by
      rw [mul_assoc]
      apply mul_le_mul_of_nonneg_left _ hX
      nlinarith
    linarith [hQ.1]
  have hQ0 : 0 ≤ Q := le_trans (mul_nonneg hX (by linarith)) hQlo
  constructor
  · have h1 : D / M * (1 - 3 * u) * 100 * (1 - u) ≤ Q * 100 * (1 - u) := by
      apply mul_le_mul_of_nonneg_right _ (by linarith)
      apply mul_le_mul_of_nonneg_right hQlo (by norm_num)
    have h2 : 100 * D / M * (1 - 8 * u) ≤ D / M * (1 - 3 * u) * 100 * (1 - u) := by
      have : 100 * D / M * (1 - 8 * u) = D / M * (100 * (1 - 8 * u)) := by ring
      rw [this, mul_assoc, mul_assoc]
      apply mul_le_mul_of_nonneg_left _ hX
      nlinarith
    linarith [hP.1]
  · have h1 : Q * 100 * (1 + u) ≤ D / M * (1 + 5 * u) * 100 * (1 + u) := by
      apply mul_le_mul_of_nonneg_right _ (by linarith)
      apply mul_le_mul_of_nonneg_right hQup (by norm_num)
    have h2 : D / M * (1 + 5 * u) * 100 * (1 + u) ≤ 100 * D / M * (1 + 8 * u) := by
      have : 100 * D / M * (1 + 8 * u) = D / M * (100 * (1 + 8 * u)) := by ring
      rw [this, mul_assoc, mul_assoc]
      apply mul_le_mul_of_nonneg_left _ hX
      nlinarith
    linarith [hP.2]


theorem toInt_zero (neg : Bool) : F32.toInt ⟨neg, 0, 0⟩ = 0 := by
  cases neg <;> decide
theorem similarity_eq (dist mb : Int) (a b q p : F32) (ha : F32.ofInt dist = some a)
    (hb : F32.ofInt mb = some b) (hq : F32.div a b = some q)
    (hp : F32.mul q ⟨false, 13107200, -17⟩ = some p) :
    similarity dist mb = some (100 - p.toInt) := by
  unfold similarity
  rw [ha, hb, ofInt_hundred]
  show (F32.div a b).bind (fun q => (F32.mul q ⟨false, 13107200, -17⟩).bind
    (fun p => some (100 - p.toInt))) = some (100 - p.toInt)
  rw [hq]
  show (F32.mul q ⟨false, 13107200, -17⟩).bind (fun p => some (100 - p.toInt))
    = some (100 - p.toInt)
  rw [hp]
  rfl


theorem similarity_zero (mb : Int) (h5 : 5 ≤ mb) (hmb : mb < 2 ^ 63) :
    similarity 0 mb = some 100 := by
  have h1 : 0 < mb := by omega
  have h2 : mb < 2 ^ 64 := by omega
  obtain ⟨b, hb, -, hbman, -⟩ := ofInt_spec mb h1 h2
  have hq : F32.div ⟨false, 0, 0⟩ b = some ⟨xor false b.neg, 0, 0⟩ :=
    div_zero_num ⟨false, 0, 0⟩ b rfl hbman
  have hp : F32.mul ⟨xor false b.neg, 0, 0⟩ ⟨false, 13107200, -17⟩
      = some ⟨xor (xor false b.neg) false, 0, 0⟩ :=
    mul_zero_left ⟨xor false b.neg, 0, 0⟩ ⟨false, 13107200, -17⟩ rfl
  rw [similarity_eq 0 mb _ _ _ _ ofInt_zero hb hq hp, toInt_zero]
  rfl


theorem hundred_mag : (F32.mag ⟨false, 13107200, -17⟩) = 100 := by
  unfold F32.mag; norm_num

/-- The four roundings of line 232 for a positive distance: the intermediate
`float32` values exist and each is within relative error `2^-24` of the exact
operation on its inputs. -/
theorem similarity_chain (dist mb : Int) (h0 : 0 < dist) (h5 : 5 ≤ mb) (hd : dist ≤ 2 * mb)
    (hmb : mb < 2 ^ 63) :
    ∃ a b q p : F32, F32.ofInt dist = some a ∧ F32.ofInt mb = some b ∧ F32.div a b = some q
      ∧ F32.mul q ⟨false, 13107200, -17⟩ = some p ∧ p.neg = false
      ∧ ((dist : ℚ) * (1 - 1 / 16777216) ≤ a.mag ∧ a.mag ≤ (dist : ℚ) * (1 + 1 / 16777216))
      ∧ ((mb : ℚ) * (1 - 1 / 16777216) ≤ b.mag ∧ b.mag ≤ (mb : ℚ) * (1 + 1 / 16777216))
      ∧ (a.mag / b.mag * (1 - 1 / 16777216) ≤ q.mag ∧ q.mag ≤ a.mag / b.mag * (1 + 1 / 16777216))
      ∧ (q.mag * 100 * (1 - 1 / 16777216) ≤ p.mag ∧ p.mag ≤ q.mag * 100 * (1 + 1 / 16777216)) := by
  have hu : (2 : ℚ) ^ (-24 : Int) = 1 / 16777216 := by norm_num
  have hDq : (1 : ℚ) ≤ (dist : ℚ) := by exact_mod_cast (show (1 : Int) ≤ dist by omega)
  have hMq : (5 : ℚ) ≤ (mb : ℚ) := by exact_mod_cast h5
  have hDM : (dist : ℚ) ≤ 2 * (mb : ℚ) := by exact_mod_cast hd
  have hMhi : (mb : ℚ) < 9223372036854775808 := by exact_mod_cast hmb
  obtain ⟨a, ha, haneg, haman, haerr⟩ := ofInt_spec dist h0 (by omega)
  obtain ⟨b, hb, hbneg, hbman, hberr⟩ := ofInt_spec mb (by omega) (by omega)
  rw [hu] at haerr hberr
  have hA := rel_bounds _ _ _ haerr
  have hB := rel_bounds _ _ _ hberr
  have hB0 : 0 < b.mag := mag_pos b hbman
  have hb64 : b.mag ≤ 18446744073709551616 := by linarith [hB.2]
  have ha2 : (1 : ℚ) / 2 ≤ a.mag := by linarith [hA.1]
  have hWlo : (1 : ℚ) / 36893488147419103232 ≤ a.mag / b.mag := by
    rw [le_div_iff₀ hB0]; linarith
  have hWhi : a.mag / b.mag ≤ 8 := by
    rw [div_le_iff₀ hB0]; linarith [hA.2, hB.1]
  have e126 : (2 : ℚ) ^ (-126 : Int) ≤ 1 / 36893488147419103232 := by norm_num
  have e127 : (1600 : ℚ) < (2 : ℚ) ^ (127 : Int) := by norm_num
  obtain ⟨q, hq, hqneg, hqman, hqerr⟩ := div_spec a b haman hbman
    (le_trans e126 hWlo) (lt_of_le_of_lt (le_trans hWhi (by norm_num)) e127)
  rw [hu] at hqerr
  have hQ := rel_bounds _ _ _ hqerr
  have hQlo : (1 : ℚ) / 36893488147419103232 / 2 ≤ q.mag := by linarith [hQ.1]
  have hQhi : q.mag ≤ 16 := by linarith [hQ.2]
  obtain ⟨p, hp, hpneg, hpman, hperr⟩ := mul_spec q ⟨false, 13107200, -17⟩ hqman (by norm_num)
    (by rw [hundred_mag]
        have hlo : (1 : ℚ) / 36893488147419103232 ≤ q.mag * 100 := by linarith
        exact le_trans e126 hlo)
    (by rw [hundred_mag]
        have hhi : q.mag * 100 ≤ 1600 := by linarith
        exact lt_of_le_of_lt hhi e127)
  rw [hundred_mag, hu] at hperr
  have hP := rel_bounds _ _ _ hperr
  have hpn : p.neg = false := by rw [hpneg, hqneg, haneg, hbneg]; rfl
  exact ⟨a, b, q, p, ha, hb, hq, hp, hpn, hA, hB, hQ, hP⟩

theorem similarity_spec (dist mb : Int) (h0 : 0 ≤ dist) (h5 : 5 ≤ mb) (hd : dist ≤ 2 * mb)
    (hmb : mb < 2 ^ 63) :
    ∃ p : Int, similarity dist mb = some p
      ∧ 100 * (dist : ℚ) / (mb : ℚ) * (1 - (2 : ℚ) ^ (-21 : Int)) - 1 < ((100 - p : Int) : ℚ)
      ∧ ((100 - p : Int) : ℚ) ≤ 100 * (dist : ℚ) / (mb : ℚ) * (1 + (2 : ℚ) ^ (-21 : Int)) := by
  by_cases hz : dist = 0
  · subst hz
    refine ⟨100, similarity_zero mb h5 hmb, ?_, ?_⟩ <;> norm_num
  have hu8 : (2 : ℚ) ^ (-21 : Int) = 8 * (1 / 16777216) := by norm_num
  have hDq : (0 : ℚ) ≤ (dist : ℚ) := by exact_mod_cast h0
  have hMq : (0 : ℚ) < (mb : ℚ) := by exact_mod_cast (show (0 : Int) < mb by omega)
  obtain ⟨a, b, q, p, ha, hb, hq, hp, hpn, hA, hB, hQ, hP⟩ :=
    similarity_chain dist mb (by omega) h5 hd hmb
  obtain ⟨ht1, ht2⟩ := toInt_spec p hpn
  obtain ⟨hc1, hc2⟩ := chain_bounds (dist : ℚ) (mb : ℚ) a.mag b.mag q.mag p.mag (1 / 16777216)
    (by norm_num) (by norm_num) hDq hMq hA hB hQ hP
  have hcast : ((100 - (100 - p.toInt) : Int) : ℚ) = (p.toInt : ℚ) := by push_cast; ring
  refine ⟨100 - p.toInt, similarity_eq dist mb a b q p ha hb hq hp, ?_, ?_⟩
  · rw [hu8, hcast]; linarith
  · rw [hu8, hcast]; linarith


/-! ### `assess` returns a result -/

theorem scorer_in_range (DefBits : Int) (og jacked : Body)
    (h : ¬ computeMatchBits DefBits og jacked < 5) :
    5 ≤ computeMatchBits DefBits og jacked
    ∧ computeMatchBits DefBits og jacked ≤ (og.length : Int)
    ∧ computeMatchBits DefBits og jacked ≤ (jacked.length : Int)
    ∧ sliceTo og (computeMatchBits DefBits og jacked)
        = some (og.take (computeMatchBits DefBits og jacked).toNat)
    ∧ sliceTo jacked (computeMatchBits DefBits og jacked)
        = some (jacked.take (computeMatchBits DefBits og jacked).toNat)
    ∧ computeMatchBits DefBits og jacked ≠ 0 := by
  rw [computeMatchBits_min] at h ⊢
  have h5 : 5 ≤ min DefBits (min (og.length : Int) (jacked.length : Int)) := by omega
  have h1 : min DefBits (min (og.length : Int) (jacked.length : Int)) ≤ (og.length : Int) := by
    omega
  have h2 : min DefBits (min (og.length : Int) (jacked.length : Int)) ≤ (jacked.length : Int) := by
    omega
  refine ⟨h5, h1, h2, ?_, ?_, by omega⟩
  · unfold sliceTo; rw [if_pos ⟨by omega, h1⟩]
  · unfold sliceTo; rw [if_pos ⟨by omega, h2⟩]

theorem toRunesLoop_length (fuel : Nat) (s : List Byte) :
    (toRunesLoop fuel s).length ≤ fuel := by
  induction fuel generalizing s with
  | zero => simp [toRunesLoop]
  | succ fuel ih =>
    cases s with
    | nil => simp [toRunesLoop]
    | cons b rest =>
      simp only [toRunesLoop]
      split_ifs
      · simp only [List.length_cons]; have := ih rest; omega
      · simp only [List.length_cons]
        have := ih ((b :: rest).drop (decoderune (b :: rest)).2)
        omega

theorem toRunes_length (s : Body) : (toRunes s).length ≤ s.length :=
  toRunesLoop_length s.length s

theorem take_length_int (s : Body) (mb : Int) (h0 : 0 ≤ mb) (h1 : mb ≤ (s.length : Int)) :
    (((s.take mb.toNat).length : Nat) : Int) = mb := by
  rw [List.length_take]
  omega

theorem scored_distance_bounds (og jacked : Body) (mb : Int) (h0 : 0 ≤ mb)
    (h1 : mb ≤ (og.length : Int)) (h2 : mb ≤ (jacked.length : Int)) :
    0 ≤ DistanceForStrings (toRunes (og.take mb.toNat)) (toRunes (jacked.take mb.toNat))
          DefaultOptions
    ∧ DistanceForStrings (toRunes (og.take mb.toNat)) (toRunes (jacked.take mb.toNat))
          DefaultOptions ≤ 2 * mb := by
  obtain ⟨hd0, hd1⟩ := distance_bounds (toRunes (og.take mb.toNat))
    (toRunes (jacked.take mb.toNat))
  have ha := toRunes_length (og.take mb.toNat)
  have hb := toRunes_length (jacked.take mb.toNat)
  have ha' := take_length_int og mb h0 h1
  have hb' := take_length_int jacked mb h0 h2
  refine ⟨hd0, ?_⟩
  have ha2 : (((toRunes (og.take mb.toNat)).length : Nat) : Int)
      ≤ (((og.take mb.toNat).length : Nat) : Int) := by exact_mod_cast ha
  have hb2 : (((toRunes (jacked.take mb.toNat)).length : Nat) : Int)
      ≤ (((jacked.take mb.toNat).length : Nat) : Int) := by exact_mod_cast hb
  omega

theorem assessBodies_scored (cfg : Config) (og jacked : Body) (target testIP : String)
    (h : ¬ computeMatchBits cfg.DefBits og jacked < 5) (p : Int)
    (hp : similarity (DistanceForStrings
        (toRunes (og.take (computeMatchBits cfg.DefBits og jacked).toNat))
        (toRunes (jacked.take (computeMatchBits cfg.DefBits og jacked).toNat)) DefaultOptions)
        (computeMatchBits cfg.DefBits og jacked) = some p) :
    assessBodies cfg og target testIP jacked
      = some { matchBits := computeMatchBits cfg.DefBits og jacked,
               distance := some (DistanceForStrings
                 (toRunes (og.take (computeMatchBits cfg.DefBits og jacked).toNat))
                 (toRunes (jacked.take (computeMatchBits cfg.DefBits og jacked).toNat))
                 DefaultOptions),
               matchy := some p,
               stdout := [(if p > 50 then "match " else "miss ") ++ testIP ++ " " ++ target
                 ++ " " ++ toString p ++ " percent in "
                 ++ toString (computeMatchBits cfg.DefBits og jacked) ++ " bytes\n"] } := by
  obtain ⟨-, -, -, hs1, hs2, -⟩ := scorer_in_range cfg.DefBits og jacked h
  unfold assessBodies
  simp only [if_neg h, hs1, hs2, hp, logPrint_line]
  split_ifs <;> rfl

theorem assessBodies_total (cfg : Config) (og jacked : Body) (target testIP : String)
    (hlen : (og.length : Int) < 2 ^ 63) :
    ∃ a, assessBodies cfg og target testIP jacked = some a := by
  by_cases h : computeMatchBits cfg.DefBits og jacked < 5
  · unfold assessBodies
    rw [if_pos h]
    exact ⟨_, rfl⟩
  · obtain ⟨h5, h1, h2, -, -, -⟩ := scorer_in_range cfg.DefBits og jacked h
    obtain ⟨hd0, hd1⟩ := scored_distance_bounds og jacked _ (by omega) h1 h2
    obtain ⟨p, hp, -, -⟩ := similarity_spec _ _ hd0 h5 hd1 (by omega)
    exact ⟨_, assessBodies_scored cfg og jacked target testIP h p hp⟩



theorem assessBodies_forced (cfg : Config) (og jacked : Body) (target testIP : String)
    (h : computeMatchBits cfg.DefBits og jacked < 5) :
    assessBodies cfg og target testIP jacked
      = some { matchBits := computeMatchBits cfg.DefBits og jacked,
               distance := none, matchy := none,
               stdout := ["miss " ++ testIP ++ " " ++ target ++ " " ++ toString (0 : Int)
                 ++ " percent in " ++ toString (0 : Int) ++ " bytes\n"] } := by
  unfold assessBodies
  simp only [if_pos h, logPrint_line]

theorem assessBodies_cases (cfg : Config) (og jacked : Body) (target testIP : String)
    (a : Assessment) (h : assessBodies cfg og target testIP jacked = some a) :
    (computeMatchBits cfg.DefBits og jacked < 5
      ∧ a = { matchBits := computeMatchBits cfg.DefBits og jacked,
              distance := none, matchy := none,
              stdout := ["miss " ++ testIP ++ " " ++ target ++ " " ++ toString (0 : Int)
                ++ " percent in " ++ toString (0 : Int) ++ " bytes\n"] })
    ∨ (¬ computeMatchBits cfg.DefBits og jacked < 5
      ∧ ∃ p : Int, similarity (DistanceForStrings
            (toRunes (og.take (computeMatchBits cfg.DefBits og jacked).toNat))
            (toRunes (jacked.take (computeMatchBits cfg.DefBits og jacked).toNat))
            DefaultOptions) (computeMatchBits cfg.DefBits og jacked) = some p
        ∧ a = { matchBits := computeMatchBits cfg.DefBits og jacked,
                distance := some (DistanceForStrings
                  (toRunes (og.take (computeMatchBits cfg.DefBits og jacked).toNat))
                  (toRunes (jacked.take (computeMatchBits cfg.DefBits og jacked).toNat))
                  DefaultOptions),
                matchy := some p,
                stdout := [(if p > 50 then "match " else "miss ") ++ testIP ++ " " ++ target
                  ++ " " ++ toString p ++ " percent in "
                  ++ toString (computeMatchBits cfg.DefBits og jacked) ++ " bytes\n"] }) := by
  by_cases hlt : computeMatchBits cfg.DefBits og jacked < 5
  · left
    rw [assessBodies_forced cfg og jacked target testIP hlt] at h
    exact ⟨hlt, (Option.some.inj h).symm⟩
  · right
    refine ⟨hlt, ?_⟩
    cases hs : similarity (DistanceForStrings
            (toRunes (og.take (computeMatchBits cfg.DefBits og jacked).toNat))
            (toRunes (jacked.take (computeMatchBits cfg.DefBits og jacked).toNat))
            DefaultOptions) (computeMatchBits cfg.DefBits og jacked) with
    | none =>
      exfalso
      obtain ⟨-, -, -, hs1, hs2, -⟩ := scorer_in_range cfg.DefBits og jacked hlt
      unfold assessBodies at h
      simp only [if_neg hlt, hs1, hs2, hs] at h
      exact Option.noConfusion h
    | some p =>
      rw [assessBodies_scored cfg og jacked target testIP hlt p hs] at h
      exact ⟨p, rfl, (Option.some.inj h).symm⟩


theorem forced_line (testIP target : String) :
    "miss " ++ testIP ++ " " ++ target ++ " " ++ toString (0 : Int) ++ " percent in "
        ++ toString (0 : Int) ++ " bytes\n"
      = "miss " ++ testIP ++ " " ++ target ++ " 0 percent in 0 bytes\n" := by
  simp only [String.append_assoc]
  rfl

/-! ### The dial hook on a candidate without colon -/

theorem lastIndexLoop_absent (c : Char) (p : List Char) (i : Nat) (acc : Int)
    (hp : ∀ x ∈ p, x ≠ c) : lastIndexLoop c p i acc = acc := by
  induction p generalizing i acc with
  | nil => rfl
  | cons x xs ih =>
    have hx : x ≠ c := hp x (List.mem_cons_self x xs)
    rw [lastIndexLoop, if_neg hx]
    exact ih (i + 1) acc (fun y hy => hp y (List.mem_cons_of_mem x hy))

theorem lastIndexLoop_sep (c : Char) (h p : List Char) (i : Nat) (acc : Int)
    (hp : ∀ x ∈ p, x ≠ c) :
    lastIndexLoop c (h ++ c :: p) i acc = ((i + h.length : Nat) : Int) := by
  induction h generalizing i acc with
  | nil =>
    rw [List.nil_append, lastIndexLoop, if_pos rfl, lastIndexLoop_absent c p _ _ hp]
    simp
  | cons x xs ih =>
    rw [List.cons_append, lastIndexLoop, ih]
    simp only [List.length_cons]
    congr 1
    omega

theorem indexLoop_absent (c : Char) (s : List Char) (i : Nat) (hs : ∀ x ∈ s, x ≠ c) :
    indexLoop c s i = -1 := by
  induction s generalizing i with
  | nil => rfl
  | cons x xs ih =>
    have hx : x ≠ c := hs x (List.mem_cons_self x xs)
    rw [indexLoop, if_neg hx]
    exact ih (i + 1) (fun y hy => hs y (List.mem_cons_of_mem x hy))

/-- The dial hook on a candidate without colon or bracket (every dotted IPv4
address): the rewritten address is `candidate:port` and `net.SplitHostPort`
recovers the candidate and the original port. -/
theorem rewriteAddr_plain (testIP host port : String)
    (hip : ∀ x ∈ testIP.data, x ≠ ':' ∧ x ≠ '[' ∧ x ≠ ']')
    (hport : ∀ x ∈ port.data, x ≠ ':' ∧ x ≠ '[' ∧ x ≠ ']') :
    rewriteAddr testIP (host ++ ":" ++ port) = some (testIP ++ ":" ++ port)
    ∧ SplitHostPort (testIP ++ ":" ++ port) = .ok (testIP, port) := by
  have hdata : ∀ a : String, (a ++ ":" ++ port).data = a.data ++ ':' :: port.data := by
    intro a
    simp only [String.data_append]
    rw [List.append_assoc]; rfl
  have hpc : ∀ x ∈ port.data, x ≠ ':' := fun x hx => (hport x hx).1
  have hlast : ∀ a : String, lastIndexByte (a ++ ":" ++ port).data ':' = (a.data.length : Int) := by
    intro a
    rw [hdata, lastIndexByte, lastIndexLoop_sep _ _ _ _ _ hpc]
    simp
  constructor
  · unfold rewriteAddr
    simp only [hlast]
    rw [if_pos (by omega)]
    congr 1
    apply String.ext
    simp only [String.data_append, hdata, Int.toNat_ofNat, List.drop_left]
  · have hall : ∀ x ∈ (testIP ++ ":" ++ port).data, x ≠ '[' ∧ x ≠ ']' := by
      intro x hx
      rw [hdata] at hx
      rcases List.mem_append.mp hx with h1 | h1
      · exact (hip x h1).2
      · rcases List.mem_cons.mp h1 with h2 | h2
        · subst h2; exact ⟨by decide, by decide⟩
        · exact (hport x h2).2
    have hhead : (testIP ++ ":" ++ port).data.head? ≠ some '[' := by
      intro hh
      have hmem := List.mem_of_mem_head? hh
      exact (hall _ hmem).1 rfl
    unfold SplitHostPort
    simp only [hlast]
    rw [if_neg (by omega), if_neg hhead]
    simp only [Int.toNat_ofNat]
    have htake : (testIP ++ ":" ++ port).data.take testIP.data.length = testIP.data := by
      rw [hdata, List.take_left]
    have hdrop : (testIP ++ ":" ++ port).data.drop (((testIP.data.length : Int) + 1).toNat)
        = port.data := by
      rw [hdata, show ((testIP.data.length : Int) + 1).toNat = testIP.data.length + 1 by omega]
      rw [List.drop_append_eq_append_drop]
      simp
    rw [htake, hdrop]
    rw [if_neg (by rw [indexByte, indexLoop_absent _ _ _ (fun x hx => (hip x hx).1)]; omega),
      if_neg (by rw [indexByte, indexLoop_absent _ _ _ (fun x hx => (hall x hx).1)]; omega),
      if_neg (by rw [indexByte, indexLoop_absent _ _ _ (fun x hx => (hall x hx).2)]; omega)]


/-! ### The worker pool: termination measure -/

theorem workersWeight_split (pre post : List Worker) (w : Worker) :
    workersWeight (pre ++ w :: post) = workersWeight pre + w.weight + workersWeight post := by
  simp [workersWeight, List.sum_append, List.sum_cons, Nat.add_assoc]

theorem inflight_split (pre post : List Worker) (w : Worker) :
    inflight (pre ++ w :: post)
      = inflight pre ++ (w.parcel.map AssessParcel.TestIP ++ inflight post) := by
  simp [inflight, List.flatMap_append, List.flatMap_cons]

theorem processedBy_split (pre post : List Worker) (w : Worker) :
    processedBy (pre ++ w :: post) = processedBy pre ++ (w.processed ++ processedBy post) := by
  simp [processedBy, List.flatMap_append, List.flatMap_cons]

/-- Every action decreases the measure, so every run of the pool is finite. -/
theorem step_measure (cfg : Config) (NewRequest : String → Bool)
    (parseIP : String → Option String) (og : Body)
    (target : String) (s t : Pool) (h : Step cfg NewRequest parseIP og target s t) :
    t.measure < s.measure := by
  cases h with
  | send ip rest hm hc =>
    simp only [Pool.measure, hm, Dispatcher.weight, Dispatcher.pending, List.length_cons,
      List.length_append, List.length_singleton, List.length_nil]
    omega
  | close hm =>
    simp only [Pool.measure, hm, Dispatcher.weight, Dispatcher.pending, List.length_nil]
    omega
  | wake hm hc =>
    simp only [Pool.measure, hm, Dispatcher.weight, Dispatcher.pending, List.length_nil]
    omega
  | recv pre post j js hw hj =>
    simp only [Pool.measure, hw, hj, workersWeight_split, Worker.weight, List.length_cons]
    omega
  | leave pre post hw hj hc =>
    simp only [Pool.measure, hw, hj, workersWeight_split, Worker.weight]
    omega
  | skip pre post j hw hp =>
    simp only [Pool.measure, hw, workersWeight_split, Worker.weight]
    omega
  | probe pre post j c res a hw hp ha =>
    simp only [Pool.measure, hw, workersWeight_split, Worker.weight]
    omega
  | done pre post j hw =>
    simp only [Pool.measure, hw, workersWeight_split, Worker.weight]
    omega


/-! ### The worker pool: the invariant -/

theorem coe_cons_add (a : String) (l : List String) :
    ((a :: l : List String) : Multiset String) = {a} + (l : Multiset String) := by
  rw [Multiset.singleton_add, Multiset.cons_coe]

theorem coe_append_add (l₁ l₂ : List String) :
    ((l₁ ++ l₂ : List String) : Multiset String) = (l₁ : Multiset String) + (l₂ : Multiset String) :=
  (Multiset.coe_add l₁ l₂).symm

theorem inflight_replicate (n : Nat) : inflight (List.replicate n Worker.receiving) = [] := by
  induction n with
  | zero => rfl
  | succ n ih =>
    rw [List.replicate_succ]
    simp only [inflight, List.flatMap_cons] at ih ⊢
    rw [ih]; rfl

theorem processedBy_replicate (n : Nat) :
    processedBy (List.replicate n Worker.receiving) = [] := by
  induction n with
  | zero => rfl
  | succ n ih =>
    rw [List.replicate_succ]
    simp only [processedBy, List.flatMap_cons] at ih ⊢
    rw [ih]; rfl

theorem inv_init (cfg : Config) (NewRequest : String → Bool)
    (parseIP : String → Option String) (og : Body) (target : String)
    (testIPs : List String) : Inv cfg NewRequest parseIP og target testIPs (Pool.init cfg testIPs) where
  cap_eq := rfl
  counter_eq := by
    simp only [Pool.init, Dispatcher.pending, inflight_replicate, List.length_nil]
    rfl
  entries := by
    simp only [Pool.init, Dispatcher.pending, inflight_replicate, List.map_nil,
      Multiset.coe_nil, add_zero]
  reported := by
    simp only [Pool.init, processedBy_replicate, List.map_nil, Multiset.coe_nil, add_zero,
      Multiset.filter_zero]
  jobs_og := by
    intro j hj
    simp only [Pool.init, List.not_mem_nil] at hj
  held_og := by
    intro w hw j hj
    simp only [Pool.init] at hw
    rw [List.eq_of_mem_replicate hw] at hj
    simp only [Worker.parcel, List.not_mem_nil] at hj
  closed_iff := by
    simp only [Pool.init]
    constructor
    · intro h; exact absurd h (by decide)
    · rintro (h | h) <;> exact Dispatcher.noConfusion h
  returned_zero := by
    intro h
    simp only [Pool.init] at h
    exact Dispatcher.noConfusion h
  exited_drained := by
    intro h
    simp only [Pool.init] at h
    have := List.eq_of_mem_replicate h
    exact Worker.noConfusion this
  pool_size := by simp only [Pool.init, List.length_replicate]
  report_real := by
    intro r hr
    simp only [Pool.init, List.not_mem_nil] at hr


theorem mem_update (pre post : List Worker) (w w' x : Worker) (h : x ∈ pre ++ w' :: post) :
    x = w' ∨ x ∈ pre ++ w :: post := by
  rcases List.mem_append.mp h with h1 | h1
  · exact Or.inr (List.mem_append.mpr (Or.inl h1))
  · rcases List.mem_cons.mp h1 with h2 | h2
    · exact Or.inl h2
    · exact Or.inr (List.mem_append.mpr (Or.inr (List.mem_cons_of_mem w h2)))

theorem length_update (pre post : List Worker) (w w' : Worker) :
    (pre ++ w' :: post).length = (pre ++ w :: post).length := by
  simp only [List.length_append, List.length_cons]

theorem not_closed_of_sending {cfg : Config} {NewRequest : String → Bool}
    {parseIP : String → Option String} {og : Body}
    {target : String} {testIPs : List String} {s : Pool}
    (hI : Inv cfg NewRequest parseIP og target testIPs s) (rest : List String)
    (hm : s.main = .sending rest) : ¬ s.closed = true := by
  intro hc
  rcases hI.closed_iff.mp hc with h | h
  · rw [hm] at h; exact Dispatcher.noConfusion h
  · rw [hm] at h; exact Dispatcher.noConfusion h

theorem inv_send {cfg : Config} {NewRequest : String → Bool}
    {parseIP : String → Option String} {og : Body}
    {target : String} {testIPs : List String} {s : Pool}
    (hI : Inv cfg NewRequest parseIP og target testIPs s) (ip : String) (rest : List String)
    (hm : s.main = .sending (ip :: rest)) :
    Inv cfg NewRequest parseIP og target testIPs
      { s with main := .sending rest, jobs := s.jobs ++ [⟨og, target, ip⟩] } where
  cap_eq := hI.cap_eq
  counter_eq := by
    have h := hI.counter_eq
    simp only [hm, Dispatcher.pending, List.length_cons] at h
    simp only [Dispatcher.pending, List.length_append, List.length_singleton]
    rw [h]; push_cast; ring
  entries := by
    have h := hI.entries
    simp only [hm, Dispatcher.pending] at h
    simp only [Dispatcher.pending, List.map_append, List.map_cons, List.map_nil]
    rw [← h, coe_cons_add, coe_append_add, Multiset.coe_singleton]
    abel
  reported := hI.reported
  jobs_og := by
    intro j hj
    rcases List.mem_append.mp hj with h1 | h1
    · exact hI.jobs_og j h1
    · rw [List.mem_singleton] at h1
      subst h1
      exact ⟨rfl, rfl⟩
  held_og := hI.held_og
  closed_iff := by
    have hnc : ¬ s.closed = true := not_closed_of_sending hI _ hm
    constructor
    · intro hc; exact absurd hc hnc
    · rintro (h | h) <;> exact Dispatcher.noConfusion h
  returned_zero := fun h => Dispatcher.noConfusion h
  exited_drained := by
    intro h
    have hnc : ¬ s.closed = true := not_closed_of_sending hI _ hm
    exact absurd (hI.exited_drained h).1 hnc
  pool_size := hI.pool_size
  report_real := hI.report_real

theorem inv_close {cfg : Config} {NewRequest : String → Bool}
    {parseIP : String → Option String} {og : Body}
    {target : String} {testIPs : List String} {s : Pool}
    (hI : Inv cfg NewRequest parseIP og target testIPs s) (hm : s.main = .sending []) :
    Inv cfg NewRequest parseIP og target testIPs { s with main := .waiting, closed := true } where
  cap_eq := hI.cap_eq
  counter_eq := by
    have h := hI.counter_eq
    simp only [hm, Dispatcher.pending] at h
    simp only [Dispatcher.pending]
    exact h
  entries := by
    have h := hI.entries
    simp only [hm, Dispatcher.pending] at h
    simp only [Dispatcher.pending]
    exact h
  reported := hI.reported
  jobs_og := hI.jobs_og
  held_og := hI.held_og
  closed_iff := ⟨fun _ => Or.inl rfl, fun _ => rfl⟩
  returned_zero := fun h => Dispatcher.noConfusion h
  exited_drained := by
    intro h
    have hnc : ¬ s.closed = true := not_closed_of_sending hI _ hm
    exact absurd (hI.exited_drained h).1 hnc
  pool_size := hI.pool_size
  report_real := hI.report_real

theorem inv_wake {cfg : Config} {NewRequest : String → Bool}
    {parseIP : String → Option String} {og : Body}
    {target : String} {testIPs : List String} {s : Pool}
    (hI : Inv cfg NewRequest parseIP og target testIPs s) (hm : s.main = .waiting) (hc : s.counter = 0) :
    Inv cfg NewRequest parseIP og target testIPs { s with main := .returned } where
  cap_eq := hI.cap_eq
  counter_eq := by
    have h := hI.counter_eq
    simp only [hm, Dispatcher.pending] at h
    simp only [Dispatcher.pending]
    exact h
  entries := by
    have h := hI.entries
    simp only [hm, Dispatcher.pending] at h
    simp only [Dispatcher.pending]
    exact h
  reported := hI.reported
  jobs_og := hI.jobs_og
  held_og := hI.held_og
  closed_iff := ⟨fun _ => Or.inr rfl, fun _ => hI.closed_iff.mpr (Or.inl hm)⟩
  returned_zero := fun _ => hc
  exited_drained := hI.exited_drained
  pool_size := hI.pool_size
  report_real := hI.report_real


theorem inv_recv {cfg : Config} {NewRequest : String → Bool}
    {parseIP : String → Option String} {og : Body}
    {target : String} {testIPs : List String} {s : Pool}
    (hI : Inv cfg NewRequest parseIP og target testIPs s) (pre post : List Worker) (j : AssessParcel)
    (js : List AssessParcel) (hw : s.workers = pre ++ Worker.receiving :: post)
    (hj : s.jobs = j :: js) :
    Inv cfg NewRequest parseIP og target testIPs
      { s with workers := pre ++ Worker.holding j :: post, jobs := js } where
  cap_eq := hI.cap_eq
  counter_eq := by
    have h := hI.counter_eq
    simp only [hw, hj, inflight_split, Worker.parcel, List.map_nil, List.length_append,
      List.length_cons, List.length_nil] at h
    simp only [inflight_split, Worker.parcel, List.map_cons, List.map_nil, List.length_append,
      List.length_cons, List.length_nil]
    rw [h]; push_cast; ring
  entries := by
    have h := hI.entries
    simp only [hw, hj, inflight_split, Worker.parcel, List.map_cons, List.map_nil,
      List.nil_append] at h
    simp only [inflight_split, Worker.parcel, List.map_cons, List.map_nil]
    rw [← h]
    simp only [coe_append_add, coe_cons_add, Multiset.coe_singleton]
    abel
  reported := by
    have h := hI.reported
    simp only [hw, processedBy_split, Worker.processed, List.nil_append] at h
    simp only [processedBy_split, Worker.processed, List.nil_append]
    exact h
  jobs_og := by
    intro x hx
    exact hI.jobs_og x (by rw [hj]; exact List.mem_cons_of_mem j hx)
  held_og := by
    intro w hwm x hx
    rcases mem_update pre post Worker.receiving _ w hwm with h1 | h1
    · subst h1
      simp only [Worker.parcel, List.mem_singleton] at hx
      subst hx
      exact hI.jobs_og x (by rw [hj]; exact List.mem_cons_self x js)
    · exact hI.held_og w (by rw [hw]; exact h1) x hx
  closed_iff := hI.closed_iff
  returned_zero := hI.returned_zero
  exited_drained := by
    intro h
    rcases mem_update pre post Worker.receiving _ _ h with h1 | h1
    · exact Worker.noConfusion h1
    · have := (hI.exited_drained (by rw [hw]; exact h1)).2
      rw [hj] at this
      exact List.noConfusion this
  pool_size := by
    have h := hI.pool_size
    rw [hw] at h
    rw [← h]
    exact length_update pre post _ _
  report_real := hI.report_real

theorem inv_leave {cfg : Config} {NewRequest : String → Bool}
    {parseIP : String → Option String} {og : Body}
    {target : String} {testIPs : List String} {s : Pool}
    (hI : Inv cfg NewRequest parseIP og target testIPs s) (pre post : List Worker)
    (hw : s.workers = pre ++ Worker.receiving :: post) (hj : s.jobs = [])
    (hc : s.closed = true) :
    Inv cfg NewRequest parseIP og target testIPs { s with workers := pre ++ Worker.exited :: post } where
  cap_eq := hI.cap_eq
  counter_eq := by
    have h := hI.counter_eq
    simp only [hw, inflight_split, Worker.parcel, List.map_nil, List.nil_append] at h
    simp only [inflight_split, Worker.parcel, List.map_nil, List.nil_append]
    exact h
  entries := by
    have h := hI.entries
    simp only [hw, inflight_split, Worker.parcel, List.map_nil, List.nil_append] at h
    simp only [inflight_split, Worker.parcel, List.map_nil, List.nil_append]
    exact h
  reported := by
    have h := hI.reported
    simp only [hw, processedBy_split, Worker.processed, List.nil_append] at h
    simp only [processedBy_split, Worker.processed, List.nil_append]
    exact h
  jobs_og := hI.jobs_og
  held_og := by
    intro w hwm x hx
    rcases mem_update pre post Worker.receiving _ w hwm with h1 | h1
    · subst h1
      simp only [Worker.parcel, List.not_mem_nil] at hx
    · exact hI.held_og w (by rw [hw]; exact h1) x hx
  closed_iff := hI.closed_iff
  returned_zero := hI.returned_zero
  exited_drained := fun _ => ⟨hc, hj⟩
  pool_size := by
    have h := hI.pool_size
    rw [hw] at h
    rw [← h]
    exact length_update pre post _ _
  report_real := hI.report_real


theorem inv_skip {cfg : Config} {NewRequest : String → Bool}
    {parseIP : String → Option String} {og : Body}
    {target : String} {testIPs : List String} {s : Pool}
    (hI : Inv cfg NewRequest parseIP og target testIPs s) (pre post : List Worker) (j : AssessParcel)
    (hw : s.workers = pre ++ Worker.holding j :: post) (hp : parseIP j.TestIP = none) :
    Inv cfg NewRequest parseIP og target testIPs { s with workers := pre ++ Worker.finishing j :: post } where
  cap_eq := hI.cap_eq
  counter_eq := by
    have h := hI.counter_eq
    simp only [hw, inflight_split, Worker.parcel] at h
    simp only [inflight_split, Worker.parcel]
    exact h
  entries := by
    have h := hI.entries
    simp only [hw, inflight_split, Worker.parcel] at h
    simp only [inflight_split, Worker.parcel]
    exact h
  reported := by
    have h := hI.reported
    simp only [hw, processedBy_split, Worker.processed, List.nil_append] at h
    simp only [processedBy_split, Worker.processed]
    rw [h]
    simp only [coe_append_add, Multiset.coe_singleton, Multiset.filter_add]
    have hf : Multiset.filter (fun e => (parseIP e).isSome = true) ({j.TestIP} : Multiset String)
        = 0 := by
      rw [Multiset.filter_singleton, if_neg (by rw [hp]; decide)]
      rfl
    rw [hf, zero_add]
  jobs_og := hI.jobs_og
  held_og := by
    intro w hwm x hx
    rcases mem_update pre post (Worker.holding j) _ w hwm with h1 | h1
    · subst h1
      exact hI.held_og (Worker.holding j) (by rw [hw]; simp) x hx
    · exact hI.held_og w (by rw [hw]; exact h1) x hx
  closed_iff := hI.closed_iff
  returned_zero := hI.returned_zero
  exited_drained := by
    intro h
    rcases mem_update pre post (Worker.holding j) _ _ h with h1 | h1
    · exact Worker.noConfusion h1
    · exact hI.exited_drained (by rw [hw]; exact h1)
  pool_size := by
    have h := hI.pool_size
    rw [hw] at h
    rw [← h]
    exact length_update pre post _ _
  report_real := hI.report_real

theorem inv_probe {cfg : Config} {NewRequest : String → Bool}
    {parseIP : String → Option String} {og : Body}
    {target : String} {testIPs : List String} {s : Pool}
    (hI : Inv cfg NewRequest parseIP og target testIPs s) (pre post : List Worker) (j : AssessParcel)
    (c : String) (res : Option Body) (a : Assessment)
    (hw : s.workers = pre ++ Worker.holding j :: post) (hp : parseIP j.TestIP = some c)
    (ha : assess cfg j.OriginalContent j.Target c (NewRequest j.Target) res = some a) :
    Inv cfg NewRequest parseIP og target testIPs
      { s with workers := pre ++ Worker.finishing j :: post,
               reports := s.reports ++ [(j.TestIP, a)] } where
  cap_eq := hI.cap_eq
  counter_eq := by
    have h := hI.counter_eq
    simp only [hw, inflight_split, Worker.parcel] at h
    simp only [inflight_split, Worker.parcel]
    exact h
  entries := by
    have h := hI.entries
    simp only [hw, inflight_split, Worker.parcel] at h
    simp only [inflight_split, Worker.parcel]
    exact h
  reported := by
    have h := hI.reported
    simp only [hw, processedBy_split, Worker.processed, List.nil_append] at h
    simp only [processedBy_split, Worker.processed, List.map_append, List.map_cons, List.map_nil]
    rw [coe_append_add, h]
    simp only [coe_append_add, Multiset.coe_singleton, Multiset.filter_add]
    have hf : Multiset.filter (fun e => (parseIP e).isSome = true) ({j.TestIP} : Multiset String)
        = {j.TestIP} := by
      rw [Multiset.filter_singleton, if_pos (by rw [hp]; rfl)]
    rw [hf]
    abel
  jobs_og := hI.jobs_og
  held_og := by
    intro w hwm x hx
    rcases mem_update pre post (Worker.holding j) _ w hwm with h1 | h1
    · subst h1
      exact hI.held_og (Worker.holding j) (by rw [hw]; simp) x hx
    · exact hI.held_og w (by rw [hw]; exact h1) x hx
  closed_iff := hI.closed_iff
  returned_zero := hI.returned_zero
  exited_drained := by
    intro h
    rcases mem_update pre post (Worker.holding j) _ _ h with h1 | h1
    · exact Worker.noConfusion h1
    · exact hI.exited_drained (by rw [hw]; exact h1)
  pool_size := by
    have h := hI.pool_size
    rw [hw] at h
    rw [← h]
    exact length_update pre post _ _
  report_real := by
    intro r hr
    rcases List.mem_append.mp hr with h1 | h1
    · exact hI.report_real r h1
    · rw [List.mem_singleton] at h1
      subst h1
      obtain ⟨h2, h3⟩ := hI.held_og (Worker.holding j) (by rw [hw]; simp) j
        (by simp [Worker.parcel])
      refine ⟨c, res, hp, ?_⟩
      rw [← h2, ← h3]
      exact ha

theorem inv_done {cfg : Config} {NewRequest : String → Bool}
    {parseIP : String → Option String} {og : Body}
    {target : String} {testIPs : List String} {s : Pool}
    (hI : Inv cfg NewRequest parseIP og target testIPs s) (pre post : List Worker) (j : AssessParcel)
    (hw : s.workers = pre ++ Worker.finishing j :: post) :
    Inv cfg NewRequest parseIP og target testIPs
      { s with workers := pre ++ Worker.receiving :: post, counter := s.counter - 1,
               handled := s.handled ++ [j.TestIP] } where
  cap_eq := hI.cap_eq
  counter_eq := by
    have h := hI.counter_eq
    simp only [hw, inflight_split, Worker.parcel, List.map_cons, List.map_nil,
      List.length_append, List.length_cons, List.length_nil] at h
    simp only [inflight_split, Worker.parcel, List.map_nil, List.length_append,
      List.length_nil]
    rw [h]; push_cast; ring
  entries := by
    have h := hI.entries
    simp only [hw, inflight_split, Worker.parcel, List.map_cons, List.map_nil] at h
    simp only [inflight_split, Worker.parcel, List.map_nil, List.nil_append]
    rw [← h]
    simp only [coe_append_add, Multiset.coe_singleton]
    abel
  reported := by
    have h := hI.reported
    simp only [hw, processedBy_split, Worker.processed] at h
    simp only [processedBy_split, Worker.processed, List.nil_append]
    rw [h]
    simp only [coe_append_add, Multiset.coe_singleton]
    congr 1
    abel
  jobs_og := hI.jobs_og
  held_og := by
    intro w hwm x hx
    rcases mem_update pre post (Worker.finishing j) _ w hwm with h1 | h1
    · subst h1
      simp only [Worker.parcel, List.not_mem_nil] at hx
    · exact hI.held_og w (by rw [hw]; exact h1) x hx
  closed_iff := hI.closed_iff
  returned_zero := by
    intro hm
    have h0 := hI.returned_zero hm
    have h := hI.counter_eq
    simp only [hw, inflight_split, Worker.parcel, List.map_cons, List.map_nil,
      List.length_append, List.length_cons, List.length_nil] at h
    rw [h0] at h
    exfalso
    push_cast at h
    omega
  exited_drained := by
    intro h
    rcases mem_update pre post (Worker.finishing j) _ _ h with h1 | h1
    · exact Worker.noConfusion h1
    · exact hI.exited_drained (by rw [hw]; exact h1)
  pool_size := by
    have h := hI.pool_size
    rw [hw] at h
    rw [← h]
    exact length_update pre post _ _
  report_real := hI.report_real

/-- Every action preserves the invariant. -/
theorem inv_step {cfg : Config} {NewRequest : String → Bool}
    {parseIP : String → Option String} {og : Body}
    {target : String} {testIPs : List String} {s t : Pool}
    (hI : Inv cfg NewRequest parseIP og target testIPs s) (h : Step cfg NewRequest parseIP og target s t) :
    Inv cfg NewRequest parseIP og target testIPs t := by
  cases h with
  | send ip rest hm hc => exact inv_send hI ip rest hm
  | close hm => exact inv_close hI hm
  | wake hm hc => exact inv_wake hI hm hc
  | recv pre post j js hw hj => exact inv_recv hI pre post j js hw hj
  | leave pre post hw hj hc => exact inv_leave hI pre post hw hj hc
  | skip pre post j hw hp => exact inv_skip hI pre post j hw hp
  | probe pre post j c res a hw hp ha => exact inv_probe hI pre post j c res a hw hp ha
  | done pre post j hw => exact inv_done hI pre post j hw

/-- The invariant holds in every reachable state. -/
theorem inv_reachable {cfg : Config} {NewRequest : String → Bool}
    {parseIP : String → Option String} {og : Body}
    {target : String} {testIPs : List String} {s : Pool}
    (h : Reachable cfg NewRequest parseIP og target testIPs s) : Inv cfg NewRequest parseIP og target testIPs s := by
  induction h with
  | refl => exact inv_init cfg NewRequest parseIP og target testIPs
  | tail _ hstep ih => exact inv_step ih hstep


/-! ### The worker pool: progress and completion -/

theorem workers_cases (ws : List Worker) :
    (∃ pre post j, ws = pre ++ Worker.holding j :: post)
    ∨ (∃ pre post j, ws = pre ++ Worker.finishing j :: post)
    ∨ (∃ pre post, ws = pre ++ Worker.receiving :: post)
    ∨ (∀ w ∈ ws, w = Worker.exited) := by
  induction ws with
  | nil => exact Or.inr (Or.inr (Or.inr (fun w hw => absurd hw (List.not_mem_nil w))))
  | cons w ws ih =>
    cases w with
    | receiving => exact Or.inr (Or.inr (Or.inl ⟨[], ws, rfl⟩))
    | holding j => exact Or.inl ⟨[], ws, j, rfl⟩
    | finishing j => exact Or.inr (Or.inl ⟨[], ws, j, rfl⟩)
    | exited =>
      rcases ih with ⟨pre, post, j, h⟩ | ⟨pre, post, j, h⟩ | ⟨pre, post, h⟩ | h
      · exact Or.inl ⟨Worker.exited :: pre, post, j, by rw [h]; rfl⟩
      · exact Or.inr (Or.inl ⟨Worker.exited :: pre, post, j, by rw [h]; rfl⟩)
      · exact Or.inr (Or.inr (Or.inl ⟨Worker.exited :: pre, post, by rw [h]; rfl⟩))
      · refine Or.inr (Or.inr (Or.inr ?_))
        intro x hx
        rcases List.mem_cons.mp hx with h1 | h1
        · exact h1
        · exact h x h1

theorem inflight_exited (ws : List Worker) (h : ∀ w ∈ ws, w = Worker.exited) :
    inflight ws = [] := by
  induction ws with
  | nil => rfl
  | cons w ws ih =>
    have hw : w = Worker.exited := h w (List.mem_cons_self w ws)
    have := ih (fun x hx => h x (List.mem_cons_of_mem w hx))
    simp only [inflight, List.flatMap_cons] at this ⊢
    rw [this, hw]
    rfl

/-- When `http.NewRequest` accepted the target, `assess` returns a result. -/
theorem assess_total (cfg : Config) (og : Body) (target testIP : String) (res : Option Body)
    (hlen : (og.length : Int) < 2 ^ 63) : ∃ a, assess cfg og target testIP true res = some a := by
  unfold assess
  rw [if_pos rfl]
  exact assessBodies_total cfg og _ target testIP hlen

/-- When `http.NewRequest` rejected the target, `assess` faults on line 195. -/
theorem assess_bad_target (cfg : Config) (og : Body) (target testIP : String)
    (res : Option Body) : assess cfg og target testIP false res = none := rfl

/-- When `http.NewRequest` rejects the target, `test` faults on line 111 and
nothing is dispatched. -/
theorem dispatchStart_rejected (NewRequest : String → Bool) (cfg : Config) (target : String)
    (testIPs : List String) (h : NewRequest target = false) :
    dispatchStart NewRequest cfg target testIPs = none := by
  unfold dispatchStart
  rw [h]
  rfl

/-- The dispatch starts exactly when `http.NewRequest` accepts the target, and
then in the state `Pool.init`. -/
theorem dispatchStart_some (NewRequest : String → Bool) (cfg : Config) (target : String)
    (testIPs : List String) (s₀ : Pool)
    (h : dispatchStart NewRequest cfg target testIPs = some s₀) :
    NewRequest target = true ∧ s₀ = Pool.init cfg testIPs := by
  unfold dispatchStart at h
  cases hreq : NewRequest target with
  | false =>
    rw [hreq] at h
    exact absurd h (by simp)
  | true =>
    rw [hreq, if_pos rfl] at h
    exact ⟨rfl, (Option.some.inj h).symm⟩

/-- No deadlock: while `test` has not returned, some goroutine can act, as long
as the pool has at least one worker. -/
theorem progress {cfg : Config} {NewRequest : String → Bool}
    {parseIP : String → Option String} {og : Body}
    {target : String} {testIPs : List String} {s : Pool}
    (hI : Inv cfg NewRequest parseIP og target testIPs s) (hW : 1 ≤ cfg.Threads)
    (hreq : NewRequest target = true)
    (hog : (og.length : Int) < 2 ^ 63) (hm : s.main ≠ .returned) :
    ∃ t, Step cfg NewRequest parseIP og target s t := by
  cases hmain : s.main with
  | returned => exact absurd hmain hm
  | sending rest =>
    cases rest with
    | nil => exact ⟨_, Step.close s hmain⟩
    | cons ip rest =>
      have hcard := congrArg Multiset.card hI.entries
      simp only [hmain, Dispatcher.pending, Multiset.card_add, Multiset.coe_card,
        List.length_cons, List.length_map] at hcard
      have hcap := hI.cap_eq
      exact ⟨_, Step.send s ip rest hmain (by omega)⟩
  | waiting =>
    rcases workers_cases s.workers with ⟨pre, post, j, hw⟩ | ⟨pre, post, j, hw⟩
        | ⟨pre, post, hw⟩ | hall
    · cases hp : parseIP j.TestIP with
      | none => exact ⟨_, Step.skip s pre post j hw hp⟩
      | some c =>
        have hj := hI.held_og (Worker.holding j) (by rw [hw]; simp) j (by simp [Worker.parcel])
        obtain ⟨a, ha⟩ := assess_total cfg j.OriginalContent j.Target c none
          (by rw [hj.1]; exact hog)
        have hreqj : NewRequest j.Target = true := by rw [hj.2]; exact hreq
        exact ⟨_, Step.probe s pre post j c none a hw hp (by rw [hreqj]; exact ha)⟩
    · exact ⟨_, Step.done s pre post j hw⟩
    · cases hj : s.jobs with
      | nil => exact ⟨_, Step.leave s pre post hw hj (hI.closed_iff.mpr (Or.inl hmain))⟩
      | cons j js => exact ⟨_, Step.recv s pre post j js hw hj⟩
    · have hne : s.workers ≠ [] := by
        intro h0
        have := hI.pool_size
        rw [h0] at this
        simp only [List.length_nil] at this
        omega
      obtain ⟨w, hwm⟩ := List.exists_mem_of_ne_nil _ hne
      have hex : Worker.exited ∈ s.workers := by rw [← hall w hwm]; exact hwm
      have hjobs := (hI.exited_drained hex).2
      have hc := hI.counter_eq
      simp only [hmain, Dispatcher.pending, hjobs, inflight_exited _ hall, List.length_nil] at hc
      exact ⟨_, Step.wake s hmain hc⟩


theorem idle_of_inflight_nil (ws : List Worker) (h : inflight ws = []) :
    processedBy ws = [] ∧ ∀ w ∈ ws, w = Worker.receiving ∨ w = Worker.exited := by
  induction ws with
  | nil => exact ⟨rfl, fun w hw => absurd hw (List.not_mem_nil w)⟩
  | cons w ws ih =>
    simp only [inflight, List.flatMap_cons, List.append_eq_nil] at h
    obtain ⟨h1, h2⟩ := h
    obtain ⟨ih1, ih2⟩ := ih h2
    cases w with
    | receiving =>
      refine ⟨by simp only [processedBy, List.flatMap_cons] at ih1 ⊢; rw [ih1]; rfl, ?_⟩
      intro x hx
      rcases List.mem_cons.mp hx with h3 | h3
      · exact Or.inl h3
      · exact ih2 x h3
    | exited =>
      refine ⟨by simp only [processedBy, List.flatMap_cons] at ih1 ⊢; rw [ih1]; rfl, ?_⟩
      intro x hx
      rcases List.mem_cons.mp hx with h3 | h3
      · exact Or.inr h3
      · exact ih2 x h3
    | holding j => simp [Worker.parcel] at h1
    | finishing j => simp [Worker.parcel] at h1

theorem assess_one_line (cfg : Config) (og : Body) (target testIP : String) (req : Bool)
    (res : Option Body) (a : Assessment) (h : assess cfg og target testIP req res = some a) :
    a.stdout.length = 1 := by
  cases req with
  | false => exact Option.noConfusion h
  | true =>
    unfold assess at h
    rw [if_pos rfl] at h
    rcases assessBodies_cases cfg og _ target testIP a h with ⟨-, ha⟩ | ⟨-, p, -, ha⟩
    · rw [ha]; rfl
    · rw [ha]; rfl

theorem stdout_length (s : Pool) (h : ∀ r ∈ s.reports, r.2.stdout.length = 1) :
    s.stdout.length = s.reports.length := by
  unfold Pool.stdout
  generalize s.reports = rs at h
  induction rs with
  | nil => rfl
  | cons r rs ih =>
    simp only [List.flatMap_cons, List.length_append, List.length_cons]
    rw [h r (List.mem_cons_self r rs), ih (fun x hx => h x (List.mem_cons_of_mem r hx))]
    omega

/-- What holds once `test` has returned. -/
theorem returned_complete {cfg : Config} {NewRequest : String → Bool}
    {parseIP : String → Option String} {og : Body}
    {target : String} {testIPs : List String} {s : Pool}
    (hI : Inv cfg NewRequest parseIP og target testIPs s) (hm : s.main = .returned) :
    List.Perm (s.reports.map Prod.fst) (testIPs.filter (fun e => (parseIP e).isSome))
    ∧ List.Perm s.handled testIPs
    ∧ s.jobs = []
    ∧ (∀ w ∈ s.workers, w = Worker.receiving ∨ w = Worker.exited)
    ∧ s.stdout.length + (testIPs.filter (fun e => !(parseIP e).isSome)).length
        = testIPs.length := by
  have h0 := hI.returned_zero hm
  have hc := hI.counter_eq
  rw [h0] at hc
  simp only [hm, Dispatcher.pending, List.length_nil] at hc
  have hjobs : s.jobs = [] := List.eq_nil_of_length_eq_zero (by omega)
  have hinf : inflight s.workers = [] := List.eq_nil_of_length_eq_zero (by omega)
  obtain ⟨hproc, hidle⟩ := idle_of_inflight_nil s.workers hinf
  have hent := hI.entries
  simp only [hm, Dispatcher.pending, hjobs, hinf, List.map_nil, Multiset.coe_nil, zero_add,
    add_zero] at hent
  have hrep := hI.reported
  rw [hproc, Multiset.coe_nil, zero_add, hent, Multiset.filter_coe] at hrep
  have hperm : List.Perm (s.reports.map Prod.fst)
      (testIPs.filter (fun e => (parseIP e).isSome)) := by
    have := Multiset.coe_eq_coe.mp hrep
    simpa using this
  have hlines : ∀ r ∈ s.reports, r.2.stdout.length = 1 := by
    intro r hr
    obtain ⟨c, res, -, ha⟩ := hI.report_real r hr
    exact assess_one_line cfg og target c (NewRequest target) res r.2 ha
  refine ⟨hperm, Multiset.coe_eq_coe.mp hent, hjobs, hidle, ?_⟩
  rw [stdout_length s hlines]
  have hl := hperm.length_eq
  rw [List.length_map] at hl
  rw [hl]
  exact (List.length_eq_length_filter_add (fun e => (parseIP e).isSome)).symm


/-- From every state that satisfies the invariant the run can be completed:
some sequence of actions leads to a state in which `test` has returned. -/
theorem run_completes {cfg : Config} {NewRequest : String → Bool}
    {parseIP : String → Option String} {og : Body}
    {target : String} {testIPs : List String} (hW : 1 ≤ cfg.Threads)
    (hreq : NewRequest target = true) (hog : (og.length : Int) < 2 ^ 63) (n : Nat) :
    ∀ s : Pool, s.measure ≤ n → Inv cfg NewRequest parseIP og target testIPs s →
      ∃ t, Relation.ReflTransGen (Step cfg NewRequest parseIP og target) s t ∧ t.main = .returned := by
  induction n with
  | zero =>
    intro s hn hI
    by_cases hm : s.main = .returned
    · exact ⟨s, Relation.ReflTransGen.refl, hm⟩
    · obtain ⟨t, ht⟩ := progress hI hW hreq hog hm
      have := step_measure cfg NewRequest parseIP og target s t ht
      omega
  | succ n ih =>
    intro s hn hI
    by_cases hm : s.main = .returned
    · exact ⟨s, Relation.ReflTransGen.refl, hm⟩
    · obtain ⟨t, ht⟩ := progress hI hW hreq hog hm
      have hlt := step_measure cfg NewRequest parseIP og target s t ht
      obtain ⟨u, hu, hret⟩ := ih t (by omega) (inv_step hI ht)
      exact ⟨u, Relation.ReflTransGen.head ht hu, hret⟩

/-- The example run: two sends, close, receive and assess `192.0.2.1`, signal,
receive and skip `garbage`, signal, and the return of `Wait`. -/
theorem example_reachable :
    Reachable exampleConfig exampleNewRequest exampleParse (asciiBody "AAAAA") "https://example.org"
      ["192.0.2.1", "garbage"] examplePool := by
  unfold Reachable
  apply Relation.ReflTransGen.head (Step.send _ "192.0.2.1" ["garbage"] rfl (by decide))
  apply Relation.ReflTransGen.head (Step.send _ "garbage" [] rfl (by decide))
  apply Relation.ReflTransGen.head (Step.close _ rfl)
  apply Relation.ReflTransGen.head (Step.recv _ [] []
    ⟨asciiBody "AAAAA", "https://example.org", "192.0.2.1"⟩
    [⟨asciiBody "AAAAA", "https://example.org", "garbage"⟩] rfl rfl)
  apply Relation.ReflTransGen.head (Step.probe _ [] []
    ⟨asciiBody "AAAAA", "https://example.org", "192.0.2.1"⟩ "192.0.2.1"
    (some (asciiBody "AAAAA"))
    { matchBits := 5, distance := some 0, matchy := some 100,
      stdout := ["match 192.0.2.1 https://example.org 100 percent in 5 bytes\n"] }
    rfl (by decide) (by decide))
  apply Relation.ReflTransGen.head (Step.done _ [] []
    ⟨asciiBody "AAAAA", "https://example.org", "192.0.2.1"⟩ rfl)
  apply Relation.ReflTransGen.head (Step.recv _ [] []
    ⟨asciiBody "AAAAA", "https://example.org", "garbage"⟩ [] rfl rfl)
  apply Relation.ReflTransGen.head (Step.skip _ [] []
    ⟨asciiBody "AAAAA", "https://example.org", "garbage"⟩ rfl (by decide))
  apply Relation.ReflTransGen.head (Step.done _ [] []
    ⟨asciiBody "AAAAA", "https://example.org", "garbage"⟩ rfl)
  apply Relation.ReflTransGen.head (Step.wake _ rfl (by decide))
  exact Relation.ReflTransGen.refl


/-! ### The rune conversion consumes the whole string -/

theorem decoderune_size_pos (s : List Byte) : 1 ≤ (decoderune s).2 := by
  unfold decoderune
  repeat' split
  all_goals first | exact le_refl 1 | (rw [apply_ite Prod.snd]; split_ifs <;> simp)

/-- The iteration bound of `toRunesLoop` is never reached: every bound of at
least the length of the string gives the same runes. -/
theorem toRunesLoop_fuel (fuel₁ fuel₂ : Nat) (s : List Byte) (h₁ : s.length ≤ fuel₁)
    (h₂ : s.length ≤ fuel₂) : toRunesLoop fuel₁ s = toRunesLoop fuel₂ s := by
  induction fuel₁ generalizing fuel₂ s with
  | zero =>
    have hs : s = [] := List.eq_nil_of_length_eq_zero (by omega)
    subst hs
    cases fuel₂ <;> rfl
  | succ f₁ ih =>
    cases s with
    | nil => cases fuel₂ <;> rfl
    | cons b rest =>
      cases fuel₂ with
      | zero => simp only [List.length_cons] at h₂; omega
      | succ f₂ =>
        simp only [List.length_cons] at h₁ h₂
        simp only [toRunesLoop]
        split_ifs
        · rw [ih f₂ rest (by omega) (by omega)]
        · have hpos := decoderune_size_pos (b :: rest)
          have hlen : ((b :: rest).drop (decoderune (b :: rest)).2).length ≤ rest.length := by
            rw [List.length_drop, List.length_cons]; omega
          rw [ih f₂ _ (by omega) (by omega)]


/-! ## The claims -/

/-- C1: in `assess` the comparable length `matchBits` computed on lines 215 to
222, before the minimum-size check, equals
`min(limit, len(baseline), len(probe))`, lengths counted in bytes, for every
limit (so also for 1, 5, 500 and 10000) and for all bodies. -/
theorem C1_matchBits_eq_min (DefBits : Int) (og jacked : Body) :
    computeMatchBits DefBits og jacked
      = min DefBits (min (og.length : Int) (jacked.length : Int)) :=
  computeMatchBits_min DefBits og jacked

/-- C2: whenever `min(limit, len(baseline), len(probe))` is below 5, `assess`
writes exactly one result line, `miss <ip> <target> 0 percent in 0 bytes`,
whatever the bodies contain, and the scorer is not reached (no distance and no
percentage are computed). -/
theorem C2_forced_miss (cfg : Config) (og jacked : Body) (target testIP : String)
    (h : min cfg.DefBits (min (og.length : Int) (jacked.length : Int)) < 5) :
    assessBodies cfg og target testIP jacked
      = some { matchBits := min cfg.DefBits (min (og.length : Int) (jacked.length : Int)),
               distance := none, matchy := none,
               stdout := ["miss " ++ testIP ++ " " ++ target ++ " 0 percent in 0 bytes\n"] } := by
  have h5 : computeMatchBits cfg.DefBits og jacked < 5 := by
    rw [computeMatchBits_min]; exact h
  rw [assessBodies_forced cfg og jacked target testIP h5, forced_line, computeMatchBits_min]

/-- Witness for C2: a baseline of 3 bytes against a longer probe, limit 500. -/
theorem C2_forced_miss_witness :
    min defaultConfig.DefBits (min (((asciiBody "abc").length : Nat) : Int)
        (((asciiBody "any probe body").length : Nat) : Int)) < 5
    ∧ assessBodies defaultConfig (asciiBody "abc") "https://example.org" "192.0.2.1"
        (asciiBody "any probe body")
      = some { matchBits := min defaultConfig.DefBits
                 (min (((asciiBody "abc").length : Nat) : Int)
                   (((asciiBody "any probe body").length : Nat) : Int)),
               distance := none, matchy := none,
               stdout := ["miss " ++ "192.0.2.1" ++ " " ++ "https://example.org"
                 ++ " 0 percent in 0 bytes\n"] } :=
  ⟨by decide, C2_forced_miss defaultConfig (asciiBody "abc") (asciiBody "any probe body")
    "https://example.org" "192.0.2.1" (by decide)⟩

/-- C3 (evaluation at the failing input): with `-perc 80`, baseline `AAAAAAA`
and probe `AAAAAAB` score 72 percent, which does not exceed the configured
threshold 80, yet `assess` reports a match: line 242 compares with the constant
50 and never reads `Threshold`. -/
theorem C3_threshold_not_read :
    assess { DefBits := 500, Threshold := 80, Threads := 200, ShowSample := false }
        (asciiBody "AAAAAAA") "https://example.org" "192.0.2.1" true
        (some (asciiBody "AAAAAAB"))
      = some { matchBits := 7, distance := some 2, matchy := some 72,
               stdout := ["match 192.0.2.1 https://example.org 72 percent in 7 bytes\n"] }
    ∧ ¬ ((72 : Int) > 80) := by
  constructor
  · decide
  · decide

/-- The result of `assess` does not depend on the flag `Threshold`. -/
theorem assess_ignores_Threshold (cfg : Config) (T : Int) (og : Body) (target testIP : String)
    (req : Bool) (res : Option Body) :
    assess { cfg with Threshold := T } og target testIP req res
      = assess cfg og target testIP req res :=
  rfl

/-- C4 (counterexample): for baseline `AAAAA` and probe `ZZZZZ` with limit 500
the distance computed with `levenshtein.DefaultOptions` is not 5 and the
percentage is not 0. -/
theorem C4_counterexample :
    DistanceForStrings (toRunes (asciiBody "AAAAA")) (toRunes (asciiBody "ZZZZZ"))
        DefaultOptions ≠ 5
    ∧ (assess defaultConfig (asciiBody "AAAAA") "https://example.org" "192.0.2.1" true
        (some (asciiBody "ZZZZZ"))).bind Assessment.distance ≠ some 5
    ∧ (assess defaultConfig (asciiBody "AAAAA") "https://example.org" "192.0.2.1" true
        (some (asciiBody "ZZZZZ"))).bind Assessment.matchy ≠ some 0 := by
  refine ⟨by decide, by decide, by decide⟩

/-- C4 (amended): with limit 500, baseline `AAAAA` and probe `ZZZZZ`, `assess`
computes comparable length 5, edit distance 10 (`levenshtein.DefaultOptions`
charges 1 for an insertion, 1 for a deletion and 2 for a substitution),
percentage -100, and reports a miss. -/
theorem C4_distinct_bodies :
    DistanceForStrings (toRunes (asciiBody "AAAAA")) (toRunes (asciiBody "ZZZZZ"))
        DefaultOptions = 10
    ∧ assess defaultConfig (asciiBody "AAAAA") "https://example.org" "192.0.2.1" true
        (some (asciiBody "ZZZZZ"))
      = some { matchBits := 5, distance := some 10, matchy := some (-100),
               stdout := ["miss 192.0.2.1 https://example.org -100 percent in 5 bytes\n"] } := by
  refine ⟨by decide, by decide⟩

/-- With unit substitution cost (`levenshtein.DefaultOptionsWithSub`, which
`main.go` does not pass) the distance of `AAAAA` and `ZZZZZ` would be 5 and the
percentage 0. -/
theorem unit_cost_distance :
    DistanceForStrings (toRunes (asciiBody "AAAAA")) (toRunes (asciiBody "ZZZZZ"))
        DefaultOptionsWithSub = 5
    ∧ similarity 5 5 = some 0 := by
  refine ⟨by decide, by decide⟩

/-- C5: for byte-identical baseline and probe bodies of length `L >= 5` and
every limit `>= 5`, `assess` computes comparable length `min(limit, L)`, edit
distance 0 and percentage 100, and reports a match. -/
theorem C5_identical_bodies (cfg : Config) (body : Body) (target testIP : String)
    (hL : 5 ≤ (body.length : Int)) (hlimit : 5 ≤ cfg.DefBits)
    (hlen : (body.length : Int) < 2 ^ 63) :
    assessBodies cfg body target testIP body
      = some { matchBits := min cfg.DefBits (body.length : Int),
               distance := some 0, matchy := some 100,
               stdout := ["match " ++ testIP ++ " " ++ target ++ " " ++ toString (100 : Int)
                 ++ " percent in " ++ toString (min cfg.DefBits (body.length : Int))
                 ++ " bytes\n"] } := by
  have hmb : computeMatchBits cfg.DefBits body body = min cfg.DefBits (body.length : Int) := by
    rw [computeMatchBits_min]; omega
  have hge : ¬ computeMatchBits cfg.DefBits body body < 5 := by rw [hmb]; omega
  have hsim : similarity (DistanceForStrings
      (toRunes (body.take (computeMatchBits cfg.DefBits body body).toNat))
      (toRunes (body.take (computeMatchBits cfg.DefBits body body).toNat)) DefaultOptions)
      (computeMatchBits cfg.DefBits body body) = some 100 := by
    rw [distance_self]
    exact similarity_zero _ (by omega) (by rw [hmb]; omega)
  rw [assessBodies_scored cfg body body target testIP hge 100 hsim, distance_self, hmb]
  rfl

/-- Witness for C5: baseline and probe `AAAAA`, limit 500. -/
theorem C5_identical_bodies_witness :
    assessBodies defaultConfig (asciiBody "AAAAA") "https://example.org" "192.0.2.1"
        (asciiBody "AAAAA")
      = some { matchBits := 5, distance := some 0, matchy := some 100,
               stdout := ["match 192.0.2.1 https://example.org 100 percent in 5 bytes\n"] } :=
  (C5_identical_bodies defaultConfig (asciiBody "AAAAA") "https://example.org" "192.0.2.1"
    (by decide) (by decide) (by decide)).trans (by decide)

theorem specPercentage_2_7 : specPercentage 2 7 = 71 := by
  unfold specPercentage
  have h : round ((2 : ℚ) / 7 * 100) = 29 := by
    rw [round_eq, Int.floor_eq_iff]
    norm_num
  push_cast
  rw [h]
  rfl

theorem specPercentage_106_200 : specPercentage 106 200 = 47 := by
  unfold specPercentage
  have h : round ((106 : ℚ) / 200 * 100) = 53 := by
    rw [round_eq, Int.floor_eq_iff]
    norm_num
  push_cast
  rw [h]
  rfl

/-- C6 (counterexample): for distance 2 over 7 bytes (baseline `AAAAAAA`, probe
`AAAAAAB`) line 232 yields 72, while `100 − round((2 / 7) × 100)` is 71; and for
distance 106 over 200 bytes it yields 48, while the formula gives 47. -/
theorem C6_counterexample :
    similarity 2 7 = some 72 ∧ specPercentage 2 7 = 71
    ∧ (assess defaultConfig (asciiBody "AAAAAAA") "https://example.org" "192.0.2.1" true
        (some (asciiBody "AAAAAAB"))).bind Assessment.matchy = some 72
    ∧ similarity 106 200 = some 48 ∧ specPercentage 106 200 = 47 := by
  refine ⟨by decide, specPercentage_2_7, by decide, by decide, specPercentage_106_200⟩

/-- C6 (amended): for every distance `0 <= d <= 2 m` (every distance `assess`
can obtain) and comparable length `5 <= m < 2^63`, line 232 yields a percentage
`p = 100 − t`, where `t` is the single-precision value of `(d / m) × 100` with
its fraction discarded (truncation, not rounding to nearest):
`x (1 − 2^-21) − 1 < t <= x (1 + 2^-21)` for `x = 100 d / m`. -/
theorem C6_percentage_truncates (d m : Int) (h0 : 0 ≤ d) (h5 : 5 ≤ m) (hd : d ≤ 2 * m)
    (hm : m < 2 ^ 63) :
    ∃ p : Int, similarity d m = some p
      ∧ 100 * (d : ℚ) / (m : ℚ) * (1 - (2 : ℚ) ^ (-21 : Int)) - 1 < ((100 - p : Int) : ℚ)
      ∧ ((100 - p : Int) : ℚ) ≤ 100 * (d : ℚ) / (m : ℚ) * (1 + (2 : ℚ) ^ (-21 : Int)) :=
  similarity_spec d m h0 h5 hd hm

/-- Witness for C6 (amended): distance 2 over 7 bytes. -/
theorem C6_percentage_truncates_witness :
    similarity 2 7 = some 72
    ∧ ∃ p : Int, similarity 2 7 = some p
      ∧ 100 * ((2 : Int) : ℚ) / ((7 : Int) : ℚ) * (1 - (2 : ℚ) ^ (-21 : Int)) - 1
          < ((100 - p : Int) : ℚ)
      ∧ ((100 - p : Int) : ℚ)
          ≤ 100 * ((2 : Int) : ℚ) / ((7 : Int) : ℚ) * (1 + (2 : ℚ) ^ (-21 : Int)) :=
  ⟨by decide, C6_percentage_truncates 2 7 (by decide) (by decide) (by decide) (by decide)⟩

/-- C7: for every target that `http.NewRequest` accepts (for any other target
`test` faults on line 111 before anything is dispatched), every candidate list
(of any size, in any order), every pool of at least one worker, every schedule
of the goroutines and every outcome of the fetches, in each state `s` the
dispatch can reach from its start `s₀`:
* if `test` has returned, the completed calls of `assess` are, up to order,
  exactly the entries that parse as an IP address, one call each; line 164 has
  run for every entry; the channel is empty and no worker holds a parcel; and
  the results stream holds `N` minus the number of unparsable entries lines;
* every completed call is a call of `assess` on a parsed entry, whatever the
  fetch returned;
* while `test` has not returned some goroutine can act (no deadlock), every
  action decreases a measure (every run is finite), and the run can be
  completed to a state in which `test` has returned. -/
theorem C7_dispatch_complete (cfg : Config) (NewRequest : String → Bool)
    (parseIP : String → Option String) (og : Body) (target : String) (testIPs : List String)
    (s₀ s : Pool) (hW : 1 ≤ cfg.Threads) (hog : (og.length : Int) < 2 ^ 63)
    (hstart : dispatchStart NewRequest cfg target testIPs = some s₀)
    (hr : Relation.ReflTransGen (Step cfg NewRequest parseIP og target) s₀ s) :
    (s.main = .returned →
      List.Perm (s.reports.map Prod.fst) (testIPs.filter (fun e => (parseIP e).isSome))
      ∧ List.Perm s.handled testIPs
      ∧ s.jobs = []
      ∧ (∀ w ∈ s.workers, w = Worker.receiving ∨ w = Worker.exited)
      ∧ s.stdout.length + (testIPs.filter (fun e => !(parseIP e).isSome)).length
          = testIPs.length)
    ∧ (∀ r ∈ s.reports, ∃ (c : String) (res : Option Body),
        parseIP r.1 = some c ∧ assess cfg og target c (NewRequest target) res = some r.2)
    ∧ (s.main ≠ .returned → ∃ t, Step cfg NewRequest parseIP og target s t)
    ∧ (∀ t, Step cfg NewRequest parseIP og target s t → t.measure < s.measure)
    ∧ (∃ t, Relation.ReflTransGen (Step cfg NewRequest parseIP og target) s t
        ∧ t.main = .returned) := by
  obtain ⟨hreq, hs₀⟩ := dispatchStart_some NewRequest cfg target testIPs s₀ hstart
  subst hs₀
  have hI : Inv cfg NewRequest parseIP og target testIPs s := inv_reachable hr
  exact ⟨returned_complete hI, hI.report_real, progress hI hW hreq hog,
    fun t ht => step_measure cfg NewRequest parseIP og target s t ht,
    run_completes hW hreq hog s.measure s (le_refl _) hI⟩

/-- Witness for C7: the run of the list `192.0.2.1`, `garbage` with one worker
and an accepted target ends with `test` returned and one result line. -/
theorem C7_dispatch_complete_witness :
    1 ≤ exampleConfig.Threads
    ∧ dispatchStart exampleNewRequest exampleConfig "https://example.org"
        ["192.0.2.1", "garbage"] = some (Pool.init exampleConfig ["192.0.2.1", "garbage"])
    ∧ Relation.ReflTransGen
        (Step exampleConfig exampleNewRequest exampleParse (asciiBody "AAAAA")
          "https://example.org")
        (Pool.init exampleConfig ["192.0.2.1", "garbage"]) examplePool
    ∧ examplePool.main = .returned
    ∧ examplePool.stdout = ["match 192.0.2.1 https://example.org 100 percent in 5 bytes\n"]
    ∧ List.Perm (examplePool.reports.map Prod.fst)
        (["192.0.2.1", "garbage"].filter (fun e => (exampleParse e).isSome))
    ∧ examplePool.stdout.length
        + (["192.0.2.1", "garbage"].filter (fun e => !(exampleParse e).isSome)).length
        = ["192.0.2.1", "garbage"].length :=
  have h := (C7_dispatch_complete exampleConfig exampleNewRequest exampleParse
    (asciiBody "AAAAA") "https://example.org" ["192.0.2.1", "garbage"]
    (Pool.init exampleConfig ["192.0.2.1", "garbage"]) examplePool (by decide) (by decide)
    rfl example_reachable).1 rfl
  ⟨by decide, rfl, example_reachable, rfl, by decide, h.1, h.2.2.2.2⟩

/-- C8 (evaluation at the failing input): for the IPv6 candidate `2001:db8::1`
and the dial address `example.org:443`, line 181 produces `2001:db8::1:443`,
which `net.SplitHostPort` rejects (too many colons), so the dial fails; the
address that denotes this candidate and port is `[2001:db8::1]:443`. For the
IPv4 candidate `192.0.2.7` the rewritten address splits into the candidate and
port 443. -/
theorem C8_ipv6_dial_address :
    rewriteAddr "2001:db8::1" "example.org:443" = some "2001:db8::1:443"
    ∧ SplitHostPort "2001:db8::1:443" = .error .tooManyColons
    ∧ SplitHostPort "[2001:db8::1]:443" = .ok ("2001:db8::1", "443")
    ∧ rewriteAddr "192.0.2.7" "example.org:443" = some "192.0.2.7:443"
    ∧ SplitHostPort "192.0.2.7:443" = .ok ("192.0.2.7", "443") := by
  refine ⟨by decide, by rfl, by rfl, by decide, by rfl⟩

/-- C9: every line `assess` writes to the results stream is
`<outcome> <candidate> <target> <percentage> percent in <length> bytes` followed
by a newline, with outcome `match` or `miss`, single spaces, and both numbers in
decimal. On the forced-miss path both numbers are 0; on the scored paths they
are the percentage and `matchBits`, and the outcome is `match` exactly when the
percentage exceeds 50. Exactly one line is written. -/
theorem C9_result_line (cfg : Config) (og jacked : Body) (target testIP : String)
    (a : Assessment) (h : assessBodies cfg og target testIP jacked = some a) :
    ∃ (outcome : String) (p n : Int),
      (outcome = "match" ∨ outcome = "miss")
      ∧ a.stdout = [outcome ++ " " ++ testIP ++ " " ++ target ++ " " ++ toString p
          ++ " percent in " ++ toString n ++ " bytes\n"]
      ∧ ((a.matchy = none ∧ outcome = "miss" ∧ p = 0 ∧ n = 0)
         ∨ (a.matchy = some p ∧ n = a.matchBits ∧ (outcome = "match" ↔ p > 50))) := by
  rcases assessBodies_cases cfg og jacked target testIP a h with ⟨-, ha⟩ | ⟨-, p, -, ha⟩
  · refine ⟨"miss", 0, 0, Or.inr rfl, ?_, Or.inl ⟨?_, rfl, rfl, rfl⟩⟩
    · rw [ha]; rfl
    · rw [ha]
  · by_cases hp : p > 50
    · refine ⟨"match", p, computeMatchBits cfg.DefBits og jacked, Or.inl rfl, ?_,
        Or.inr ⟨?_, ?_, ?_⟩⟩
      · rw [ha]; simp only [if_pos hp]; rfl
      · rw [ha]
      · rw [ha]
      · exact ⟨fun _ => hp, fun _ => rfl⟩
    · refine ⟨"miss", p, computeMatchBits cfg.DefBits og jacked, Or.inr rfl, ?_,
        Or.inr ⟨?_, ?_, ?_⟩⟩
      · rw [ha]; simp only [if_neg hp]; rfl
      · rw [ha]
      · rw [ha]
      · exact ⟨fun hm => absurd hm (by decide), fun h50 => absurd h50 hp⟩

/-- Witness for C9: identical 5-byte bodies with limit 500 are reported as
`match <ip> <url> 100 percent in 5 bytes`. -/
theorem C9_result_line_witness :
    assessBodies defaultConfig (asciiBody "AAAAA") "https://example.org" "192.0.2.1"
        (asciiBody "AAAAA")
      = some { matchBits := 5, distance := some 0, matchy := some 100,
               stdout := ["match 192.0.2.1 https://example.org 100 percent in 5 bytes\n"] }
    ∧ ∃ (outcome : String) (p n : Int),
      (outcome = "match" ∨ outcome = "miss")
      ∧ ["match 192.0.2.1 https://example.org 100 percent in 5 bytes\n"]
          = [outcome ++ " " ++ "192.0.2.1" ++ " " ++ "https://example.org" ++ " " ++ toString p
              ++ " percent in " ++ toString n ++ " bytes\n"]
      ∧ (((some 100 : Option Int) = none ∧ outcome = "miss" ∧ p = 0 ∧ n = 0)
         ∨ ((some 100 : Option Int) = some p ∧ n = 5 ∧ (outcome = "match" ↔ p > 50))) :=
  ⟨by decide, C9_result_line defaultConfig (asciiBody "AAAAA") (asciiBody "AAAAA")
    "https://example.org" "192.0.2.1"
    { matchBits := 5, distance := some 0, matchy := some 100,
      stdout := ["match 192.0.2.1 https://example.org 100 percent in 5 bytes\n"] } (by decide)⟩

/-- C10: whenever `assess` reaches the scorer (the check `matchBits < 5` on line
224 failed), `5 <= matchBits <= len(og)` and `matchBits <= len(jacked)`; hence
both slices `og[:matchBits]` and `jacked[:matchBits]` are in range, the divisor
`matchBits` is not zero, and (for bodies whose length fits a Go `int`) `assess`
finishes without a runtime fault. -/
theorem C10_scorer_in_range (cfg : Config) (og jacked : Body) (target testIP : String)
    (h : ¬ computeMatchBits cfg.DefBits og jacked < 5) :
    5 ≤ computeMatchBits cfg.DefBits og jacked
    ∧ computeMatchBits cfg.DefBits og jacked ≤ (og.length : Int)
    ∧ computeMatchBits cfg.DefBits og jacked ≤ (jacked.length : Int)
    ∧ sliceTo og (computeMatchBits cfg.DefBits og jacked)
        = some (og.take (computeMatchBits cfg.DefBits og jacked).toNat)
    ∧ sliceTo jacked (computeMatchBits cfg.DefBits og jacked)
        = some (jacked.take (computeMatchBits cfg.DefBits og jacked).toNat)
    ∧ computeMatchBits cfg.DefBits og jacked ≠ 0
    ∧ ((og.length : Int) < 2 ^ 63 →
        ∃ a, assessBodies cfg og target testIP jacked = some a) := by
  obtain ⟨h1, h2, h3, h4, h5, h6⟩ := scorer_in_range cfg.DefBits og jacked h
  exact ⟨h1, h2, h3, h4, h5, h6, assessBodies_total cfg og jacked target testIP⟩

/-- Witness for C10: two bodies of 5 bytes with limit 500 reach the scorer. -/
theorem C10_scorer_in_range_witness :
    ¬ computeMatchBits defaultConfig.DefBits (asciiBody "AAAAA") (asciiBody "ZZZZZ") < 5
    ∧ 5 ≤ computeMatchBits defaultConfig.DefBits (asciiBody "AAAAA") (asciiBody "ZZZZZ")
    ∧ sliceTo (asciiBody "AAAAA")
        (computeMatchBits defaultConfig.DefBits (asciiBody "AAAAA") (asciiBody "ZZZZZ"))
        = some ((asciiBody "AAAAA").take
            (computeMatchBits defaultConfig.DefBits (asciiBody "AAAAA") (asciiBody "ZZZZZ")).toNat) :=
  have hw := C10_scorer_in_range defaultConfig (asciiBody "AAAAA") (asciiBody "ZZZZZ")
    "https://example.org" "192.0.2.1" (by decide)
  ⟨by decide, hw.1, hw.2.2.2.1⟩

end Curryfinger
